import Mathlib

/-!
Verification of the sutherland-time-tracking backend.

The system is a CRUD backend over an SQLite store with five tables
(`properties`, `employees`, `entries`, `entry_employees`, `activeTimers`).
There are two server variants in the repository:
the better-sqlite3 variant (multi-statement mutations wrapped in
`db.transaction`, rolled back as a whole on failure) and the older
node-sqlite3 callback variant (several multi-statement mutations run as
separate autocommitted statements, NOT wrapped in a transaction).

We embed the store as explicit state (lists of rows plus autoincrement
counters) and each HTTP handler as a pure function from store and request to
response and new store.  I/O and constraint failures of individual SQL
statements are modelled by a failure oracle: `fail k = true` means the k-th
SQL statement executed by the handler fails.  A `db.transaction` block is
modelled by returning the original store whenever any statement inside it
fails; autocommitted statements keep their effect once executed.
-/

/-! Store rows.  Column types follow the schema in the setup script:
`entries.timeIn` and `entries.timeOut` are nullable TEXT (the migration
script can store NULL there), everything else the handlers write is TEXT
or INTEGER. -/

structure Entry where
  id : Nat
  date : String
  client : String
  propertyAddress : String
  service : String
  timeIn : Option String
  timeOut : Option String
  totalHours : String
deriving Repr, DecidableEq

structure EntryEmployee where
  entry_id : Nat
  employee_name : String
deriving Repr, DecidableEq

structure Property where
  id : Nat
  fullName : String
  address : String
  services : Option String
deriving Repr, DecidableEq

structure Employee where
  id : Nat
  name : String
deriving Repr, DecidableEq

structure ActiveTimer where
  id : String
  startTime : String
  date : String
  client : String
  propertyAddress : String
  service : String
  employees : String
deriving Repr, DecidableEq

/-- The relational store: five tables plus the AUTOINCREMENT counters of the
three tables with integer autoincrement keys. -/
structure DB where
  entries : List Entry
  entry_employees : List EntryEmployee
  properties : List Property
  employees : List Employee
  activeTimers : List ActiveTimer
  nextEntryId : Nat
  nextPropertyId : Nat
  nextEmployeeId : Nat
deriving Repr, DecidableEq

/-- The empty store, as produced by the setup script. -/
def DB.empty : DB :=
  { entries := [], entry_employees := [], properties := [], employees := []
    activeTimers := [], nextEntryId := 1, nextPropertyId := 1, nextEmployeeId := 1 }

/-- Failure oracle: `fail k = true` means the k-th SQL statement executed by
the handler fails (I/O error or constraint violation). -/
def Oracle : Type := Nat → Bool

/-- The oracle under which every statement succeeds. -/
def noFail : Oracle := fun _ => false

/-- HTTP responses the handlers produce. -/
inductive Resp where
  /-- 201 with the created record including the generated id. -/
  | created (id : Nat)
  /-- 201 with the body restricted to the name field. -/
  | createdName (name : String)
  /-- 200 echoing the submitted body. -/
  | okBody
  /-- 204 with an empty body. -/
  | noContent
  /-- 500 with the raw error message. -/
  | err500
deriving Repr, DecidableEq

/-- Request body of POST and PUT on entries. -/
structure EntryReq where
  date : String
  client : String
  propertyAddress : String
  service : String
  employees : List String
  timeIn : String
  timeOut : String
  totalHours : String
deriving Repr, DecidableEq

/-- The entries row a creation or update request describes (fresh id `eid`). -/
def EntryReq.toRow (r : EntryReq) (eid : Nat) : Entry :=
  { id := eid, date := r.date, client := r.client
    propertyAddress := r.propertyAddress, service := r.service
    timeIn := some r.timeIn, timeOut := some r.timeOut
    totalHours := r.totalHours }

/-- Loop body of the employee-link inserts
(`INSERT INTO entry_employees (entry_id, employee_name) VALUES (?, ?)`
once per employee name), statements numbered from `k`.
Returns `none` as soon as one insert fails: used inside `db.transaction`,
where the first throw aborts and rolls back the whole block. -/
def insertLinks (fail : Oracle) (k : Nat) (eid : Nat) (emps : List String)
    (db : DB) : Option DB :=
  match emps with
  | [] => some db
  | e :: rest =>
    if fail k then none
    else insertLinks fail (k + 1) eid rest
      { db with entry_employees := db.entry_employees ++ [⟨eid, e⟩] }

/-- Same link-insert loop without a surrounding transaction (node-sqlite3
variant): every insert autocommits, so on the first failure the links already
inserted stay in the store.  Returns the store reached and a success flag. -/
def insertLinksNoTx (fail : Oracle) (k : Nat) (eid : Nat) (emps : List String)
    (db : DB) : DB × Bool :=
  match emps with
  | [] => (db, true)
  | e :: rest =>
    if fail k then (db, false)
    else insertLinksNoTx fail (k + 1) eid rest
      { db with entry_employees := db.entry_employees ++ [⟨eid, e⟩] }

/-- POST /api/entries, better-sqlite3 variant: one `db.transaction` inserts
the entries row (statement 0) and one entry_employees row per employee name
(statements 1..); any failure rolls the whole block back and answers 500,
success answers 201 with the generated id. -/
def postEntries (db : DB) (r : EntryReq) (fail : Oracle) : Resp × DB :=
  if fail 0 then (.err500, db)
  else
    let newId := db.nextEntryId
    let db1 := { db with entries := db.entries ++ [r.toRow newId]
                         nextEntryId := newId + 1 }
    match insertLinks fail 1 newId r.employees db1 with
    | some db2 => (.created newId, db2)
    | none => (.err500, db)

/-- POST /api/entries, node-sqlite3 callback variant: the entries insert is a
single autocommitted statement; the link inserts run afterwards with no
transaction, so the entries row stays committed even when a link insert
fails. -/
def postEntriesAsync (db : DB) (r : EntryReq) (fail : Oracle) : Resp × DB :=
  if fail 0 then (.err500, db)
  else
    let newId := db.nextEntryId
    let db1 := { db with entries := db.entries ++ [r.toRow newId]
                         nextEntryId := newId + 1 }
    let res := insertLinksNoTx fail 1 newId r.employees db1
    (if res.2 then .created newId else .err500, res.1)

/-- UPDATE of the mutable columns of the entries row with id `eid`
(`UPDATE entries SET ... WHERE id = ?`); rows with other ids are kept. -/
def updateEntryRow (r : EntryReq) (eid : Nat) (e : Entry) : Entry :=
  if e.id = eid then
    { e with date := r.date, client := r.client
             propertyAddress := r.propertyAddress, service := r.service
             timeIn := some r.timeIn, timeOut := some r.timeOut
             totalHours := r.totalHours }
  else e

/-- PUT /api/entries/:id, transactional: statement 0 updates the entries row,
statement 1 deletes all entry_employees rows of that id, statements 2..
insert one link per submitted employee name; any failure rolls everything
back and answers 500, success answers 200 with the submitted body. -/
def putEntries (db : DB) (eid : Nat) (r : EntryReq) (fail : Oracle) :
    Resp × DB :=
  if fail 0 then (.err500, db)
  else
    let db1 := { db with entries := db.entries.map (updateEntryRow r eid) }
    if fail 1 then (.err500, db)
    else
      let db2 := { db1 with
        entry_employees := db1.entry_employees.filter
          (fun l => l.entry_id != eid) }
      match insertLinks fail 2 eid r.employees db2 with
      | some db3 => (.okBody, db3)
      | none => (.err500, db)

/-- DELETE /api/properties/:address, better-sqlite3 variant: one transaction
deletes all entries rows whose propertyAddress equals the address
(statement 0) and then the properties row (statement 1); any failure rolls
both back. -/
def deleteProperty (db : DB) (addr : String) (fail : Oracle) : Resp × DB :=
  if fail 0 then (.err500, db)
  else
    let db1 := { db with
      entries := db.entries.filter (fun e => e.propertyAddress != addr) }
    if fail 1 then (.err500, db)
    else
      (.noContent, { db1 with
        properties := db1.properties.filter (fun p => p.address != addr) })

/-- DELETE /api/properties/:address, node-sqlite3 variant: the two deletes
are separate autocommitted statements (`db.serialize` without BEGIN/COMMIT),
so when the properties delete fails the entries delete stays committed. -/
def deletePropertyAsync (db : DB) (addr : String) (fail : Oracle) :
    Resp × DB :=
  if fail 0 then (.err500, db)
  else
    let db1 := { db with
      entries := db.entries.filter (fun e => e.propertyAddress != addr) }
    if fail 1 then (.err500, db1)
    else
      (.noContent, { db1 with
        properties := db1.properties.filter (fun p => p.address != addr) })

/-- POST /api/employees: `INSERT OR IGNORE INTO employees (name) VALUES (?)`.
A name conflict is ignored by the store (no row inserted, no error, the
autoincrement sequence untouched); the handler answers 201 with the name
either way. -/
def postEmployee (db : DB) (name : String) (fail : Oracle) : Resp × DB :=
  if fail 0 then (.err500, db)
  else if db.employees.any (fun e => e.name == name) then
    (.createdName name, db)
  else
    (.createdName name,
      { db with employees := db.employees ++ [⟨db.nextEmployeeId, name⟩]
                nextEmployeeId := db.nextEmployeeId + 1 })

/-- DELETE /api/timers/:id: `DELETE FROM activeTimers WHERE id = ?`.
A DELETE that matches no row is a successful statement in SQLite, so the
handler answers 204 whether or not the id was present; 500 only when the
statement itself fails. -/
def deleteTimer (db : DB) (tid : String) (fail : Oracle) : Resp × DB :=
  if fail 0 then (.err500, db)
  else
    (.noContent,
      { db with activeTimers := db.activeTimers.filter (fun t => t.id != tid) })

/-! JSON values and the serialize/deserialize boundary.

The handlers store nested data (`properties.services`,
`activeTimers.employees`) as text via `JSON.stringify` and read it back via
`JSON.parse`.  We model JSON values with numbers restricted to integers
(floating point is outside the model) and model `JSON.stringify` (compact
output, no whitespace) and `JSON.parse` (on such compact texts; insignificant
whitespace is not modelled) at the character-list level. -/

inductive Json where
  | null : Json
  | bool (b : Bool) : Json
  | num (n : Int) : Json
  | str (s : String) : Json
  | arr (elems : List Json) : Json
  | obj (fields : List (String × Json)) : Json

/-- Decimal digit characters of a natural number, most significant first. -/
def natChars (n : Nat) : List Char :=
  if n < 10 then [Nat.digitChar n]
  else natChars (n / 10) ++ [Nat.digitChar (n % 10)]
termination_by n
decreasing_by exact Nat.div_lt_self (by omega) (by omega)

/-- Decimal digit characters of an integer, with a leading minus sign when
negative (this is how JSON.stringify prints an integral number). -/
def intChars (i : Int) : List Char :=
  if i < 0 then '-' :: natChars i.natAbs else natChars i.natAbs

/-- String escaping done by JSON.stringify: quote and backslash are
backslash-escaped, newline, tab and carriage return use the short escapes.
(JS escapes the remaining control characters as unicode escapes; those are
outside the model.) -/
def escChar (c : Char) : List Char :=
  if c = '"' then ['\\', '"']
  else if c = '\\' then ['\\', '\\']
  else if c = '\n' then ['\\', 'n']
  else if c = '\t' then ['\\', 't']
  else if c = '\r' then ['\\', 'r']
  else [c]

/-- Escape every character of a string body. -/
def escString : List Char → List Char
  | [] => []
  | c :: cs => escChar c ++ escString cs

mutual

/-- Characters of the compact JSON.stringify output of a value. -/
def printJson : Json → List Char
  | .null => 'n' :: 'u' :: 'l' :: 'l' :: []
  | .bool true => 't' :: 'r' :: 'u' :: 'e' :: []
  | .bool false => 'f' :: 'a' :: 'l' :: 's' :: 'e' :: []
  | .num i => intChars i
  | .str s => '"' :: (escString s.data ++ ['"'])
  | .arr es => '[' :: (printElems es ++ [']'])
  | .obj fs => '\x7b' :: (printFields fs ++ ['\x7d'])

/-- Comma-separated array elements. -/
def printElems : List Json → List Char
  | [] => []
  | [e] => printJson e
  | e :: rest => printJson e ++ ',' :: printElems rest

/-- Comma-separated object members, each a quoted escaped key, a colon and
the value. -/
def printFields : List (String × Json) → List Char
  | [] => []
  | [(k, v)] => '"' :: (escString k.data ++ ['"', ':']) ++ printJson v
  | (k, v) :: rest =>
    ('"' :: (escString k.data ++ ['"', ':']) ++ printJson v) ++
      ',' :: printFields rest

end

/-- Numeric value of a decimal digit character. -/
def digitVal (c : Char) : Nat := c.toNat - 48

/-- Consume a maximal run of decimal digits, extending the accumulator. -/
def parseDigitsAux : List Char → Nat → Nat × List Char
  | [], acc => (acc, [])
  | c :: cs, acc =>
    if c.isDigit then parseDigitsAux cs (acc * 10 + digitVal c)
    else (acc, c :: cs)

/-- Parse a nonempty run of decimal digits. -/
def parseDecimal : List Char → Option (Nat × List Char)
  | [] => none
  | c :: cs => if c.isDigit then some (parseDigitsAux cs (digitVal c)) else none

/-- Undo a short escape: the character following a backslash. -/
def unescChar (c : Char) : Char :=
  if c = 'n' then '\n' else if c = 't' then '\t' else if c = 'r' then '\r'
  else c

/-- Parse a string body up to the closing quote, handling escapes. -/
def parseStrChars : List Char → Option (List Char × List Char)
  | [] => none
  | c :: cs =>
    if c = '"' then some ([], cs)
    else if c = '\\' then
      match cs with
      | [] => none
      | e :: cs2 => (parseStrChars cs2).map (fun p => (unescChar e :: p.1, p.2))
    else (parseStrChars cs).map (fun p => (c :: p.1, p.2))

mutual

/-- Fuel-indexed recursive-descent JSON reader (the model of JSON.parse on
compact texts).  Out of fuel means failure; the top-level entry point
supplies fuel ample for any input of the given length. -/
def parseJ : Nat → List Char → Option (Json × List Char)
  | 0, _ => none
  | fuel + 1, cs =>
    match cs with
    | [] => none
    | c :: rest =>
      if c = 'n' then
        match rest with
        | 'u' :: 'l' :: 'l' :: rest2 => some (Json.null, rest2)
        | _ => none
      else if c = 't' then
        match rest with
        | 'r' :: 'u' :: 'e' :: rest2 => some (Json.bool true, rest2)
        | _ => none
      else if c = 'f' then
        match rest with
        | 'a' :: 'l' :: 's' :: 'e' :: rest2 => some (Json.bool false, rest2)
        | _ => none
      else if c = '"' then
        (parseStrChars rest).map (fun p => (Json.str (String.mk p.1), p.2))
      else if c = '[' then
        if rest.head? = some ']' then some (Json.arr [], rest.tail)
        else (parseElems fuel rest).map (fun p => (Json.arr p.1, p.2))
      else if c = '\x7b' then
        if rest.head? = some '\x7d' then some (Json.obj [], rest.tail)
        else (parseFields fuel rest).map (fun p => (Json.obj p.1, p.2))
      else if c = '-' then
        (parseDecimal rest).map (fun p => (Json.num (-(p.1 : Int)), p.2))
      else if c.isDigit then
        (parseDecimal (c :: rest)).map (fun p => (Json.num (p.1 : Int), p.2))
      else none

/-- Read one or more comma-separated values terminated by a closing
bracket. -/
def parseElems : Nat → List Char → Option (List Json × List Char)
  | 0, _ => none
  | fuel + 1, cs =>
    match parseJ fuel cs with
    | none => none
    | some (v, rest) =>
      if rest.head? = some ',' then
        (parseElems fuel rest.tail).map (fun p => (v :: p.1, p.2))
      else if rest.head? = some ']' then some ([v], rest.tail)
      else none

/-- Read one or more comma-separated key-value members terminated by a
closing brace. -/
def parseFields : Nat → List Char → Option (List (String × Json) × List Char)
  | 0, _ => none
  | fuel + 1, cs =>
    if cs.head? = some '"' then
      match parseStrChars cs.tail with
      | none => none
      | some (k, cs2) =>
        if cs2.head? = some ':' then
          match parseJ fuel cs2.tail with
          | none => none
          | some (v, rest) =>
            if rest.head? = some ',' then
              (parseFields fuel rest.tail).map
                (fun p => ((String.mk k, v) :: p.1, p.2))
            else if rest.head? = some '\x7d' then
              some ([(String.mk k, v)], rest.tail)
            else none
        else none
    else none

end

/-- Model of JSON.stringify. -/
def Json.stringify (j : Json) : String := String.mk (printJson j)

/-- Model of JSON.parse: the whole text must be consumed by one value.
JSON.parse throws on failure; we return `none`.  The fuel is ample: the
reader consumes at least one character per two fuel levels. -/
def Json.parse (s : String) : Option Json :=
  match parseJ (2 * s.length + 2) s.data with
  | some (j, []) => some j
  | _ => none

/-! GET /api/data: the fetch-all aggregate. -/

/-- An entries row as returned by fetch-all: all columns plus the employee
names stitched on from the join table. -/
structure EntryOut where
  id : Nat
  date : String
  client : String
  propertyAddress : String
  service : String
  timeIn : Option String
  timeOut : Option String
  totalHours : String
  employees : List String
deriving Repr, DecidableEq

/-- A properties row with its services column deserialized. -/
structure PropertyOut where
  id : Nat
  fullName : String
  address : String
  services : Json

/-- An activeTimers row with its employees column deserialized. -/
structure TimerOut where
  id : String
  startTime : String
  date : String
  client : String
  propertyAddress : String
  service : String
  employees : Json

/-- The fetch-all response body. -/
structure Aggregate where
  entries : List EntryOut
  properties : List PropertyOut
  employees : List Employee
  activeTimers : List TimerOut

/-- Byte-wise strict text comparison: SQLite compares TEXT column values by
memcmp of their bytes; on code points this is plain lexicographic order. -/
def strLtChars : List Char → List Char → Bool
  | [], [] => false
  | [], _ :: _ => true
  | _ :: _, [] => false
  | c :: cs, d :: ds =>
    if c.toNat < d.toNat then true
    else if d.toNat < c.toNat then false
    else strLtChars cs ds

/-- Strict order the store applies to TEXT values. -/
def strLt (a b : String) : Prop := strLtChars a.data b.data = true

instance : DecidableRel strLt := fun a b => by
  unfold strLt; infer_instance

/-- Exactly one of lt, gt, eq holds for the store text order. -/
theorem strLtChars_trichotomy : ∀ cs ds : List Char,
    strLtChars cs ds = true ∨ strLtChars ds cs = true ∨ cs = ds := by
  intro cs
  induction cs with
  | nil =>
    intro ds
    cases ds with
    | nil => exact Or.inr (Or.inr rfl)
    | cons d ds => exact Or.inl rfl
  | cons c cs IH =>
    intro ds
    cases ds with
    | nil => exact Or.inr (Or.inl rfl)
    | cons d ds =>
      by_cases h1 : c.toNat < d.toNat
      · exact Or.inl (by simp [strLtChars, h1])
      · by_cases h2 : d.toNat < c.toNat
        · refine Or.inr (Or.inl ?_)
          simp [strLtChars, h2]
        · have hcd : c = d := by
            have hn : c.toNat = d.toNat := by omega
            exact Char.ext (UInt32.ext hn)
          subst hcd
          rcases IH ds with h | h | h
          · exact Or.inl (by simp [strLtChars, h])
          · exact Or.inr (Or.inl (by simp [strLtChars, h]))
          · exact Or.inr (Or.inr (by rw [h]))

/-- The store text order is transitive. -/
theorem strLtChars_trans : ∀ cs ds es : List Char,
    strLtChars cs ds = true → strLtChars ds es = true →
    strLtChars cs es = true := by
  intro cs
  induction cs with
  | nil =>
    intro ds es h1 h2
    cases es with
    | nil =>
      cases ds with
      | nil => exact absurd h1 (by simp [strLtChars])
      | cons d ds => exact absurd h2 (by simp [strLtChars])
    | cons e es => simp [strLtChars]
  | cons c cs IH =>
    intro ds es h1 h2
    cases ds with
    | nil => exact absurd h1 (by simp [strLtChars])
    | cons d ds =>
      cases es with
      | nil => exact absurd h2 (by simp [strLtChars])
      | cons e es =>
        simp only [strLtChars] at h1 h2 ⊢
        by_cases hcd : c.toNat < d.toNat
        · by_cases hde : d.toNat < e.toNat
          · simp [show c.toNat < e.toNat by omega]
          · by_cases hed : e.toNat < d.toNat
            · simp [hde, hed] at h2
            · have : d.toNat = e.toNat := by omega
              simp [show c.toNat < e.toNat by omega]
        · by_cases hdc : d.toNat < c.toNat
          · simp [hcd, hdc] at h1
          · have hcd' : c.toNat = d.toNat := by omega
            by_cases hde : d.toNat < e.toNat
            · simp [show c.toNat < e.toNat by omega]
            · by_cases hed : e.toNat < d.toNat
              · simp [hde, hed] at h2
              · have : ¬ c.toNat < e.toNat := by omega
                have : ¬ e.toNat < c.toNat := by omega
                simp only [hcd, hdc, if_false, if_neg] at h1
                simp only [hde, hed, if_false, if_neg] at h2
                simp [show ¬ c.toNat < e.toNat by omega,
                  show ¬ e.toNat < c.toNat by omega]
                exact IH ds es (by simpa using h1) (by simpa using h2)

/-- Text order on whole strings: trichotomy. -/
theorem strLt_trichotomy (a b : String) : strLt a b ∨ strLt b a ∨ a = b := by
  rcases strLtChars_trichotomy a.data b.data with h | h | h
  · exact Or.inl h
  · exact Or.inr (Or.inl h)
  · refine Or.inr (Or.inr ?_)
    cases a
    cases b
    exact congrArg String.mk h

/-- Text order on whole strings: transitivity. -/
theorem strLt_trans {a b c : String} (h1 : strLt a b) (h2 : strLt b c) :
    strLt a c :=
  strLtChars_trans a.data b.data c.data h1 h2

/-- Order produced by `ORDER BY date DESC, id DESC` (newest first): `a`
comes no later than `b` when its date is larger, or dates tie and its id is
no smaller. -/
def entryDesc (a b : Entry) : Prop :=
  strLt b.date a.date ∨ (b.date = a.date ∧ b.id ≤ a.id)

instance : DecidableRel entryDesc := fun a b => by
  unfold entryDesc; infer_instance

instance : IsTotal Entry entryDesc := by
  constructor
  intro a b
  rcases strLt_trichotomy a.date b.date with h | h | h
  · exact Or.inr (Or.inl h)
  · exact Or.inl (Or.inl h)
  · rcases Nat.le_total b.id a.id with h2 | h2
    · exact Or.inl (Or.inr ⟨h.symm, h2⟩)
    · exact Or.inr (Or.inr ⟨h, h2⟩)

instance : IsTrans Entry entryDesc := by
  constructor
  intro a b c hab hbc
  rcases hab with h1 | ⟨h1, h1'⟩ <;> rcases hbc with h2 | ⟨h2, h2'⟩
  · exact Or.inl (strLt_trans h2 h1)
  · exact Or.inl (h2 ▸ h1)
  · exact Or.inl (h1 ▸ h2)
  · exact Or.inr ⟨h2.trans h1, h2'.trans h1'⟩

/-- Order produced by `ORDER BY name` on employees: equal or smaller in the
store text order. -/
def empByName (a b : Employee) : Prop :=
  a.name = b.name ∨ strLt a.name b.name

instance : DecidableRel empByName := fun a b => by
  unfold empByName; infer_instance

instance : IsTotal Employee empByName := by
  constructor
  intro a b
  rcases strLt_trichotomy a.name b.name with h | h | h
  · exact Or.inl (Or.inr h)
  · exact Or.inr (Or.inr h)
  · exact Or.inl (Or.inl h)

instance : IsTrans Employee empByName := by
  constructor
  intro a b c hab hbc
  rcases hab with h1 | h1 <;> rcases hbc with h2 | h2
  · exact Or.inl (h1.trans h2)
  · exact Or.inr (h1 ▸ h2)
  · exact Or.inr (h2 ▸ h1)
  · exact Or.inr (strLt_trans h1 h2)

/-- Employee names linked to entry `eid` in the join table, in table order
(the stitch `entry_employees.filter(...).map(...)` of the handler). -/
def entryEmployeeNames (links : List EntryEmployee) (eid : Nat) :
    List String :=
  (links.filter (fun l => l.entry_id == eid)).map (fun l => l.employee_name)

/-- An entries row annotated with its employee names. -/
def entryWithEmployees (links : List EntryEmployee) (e : Entry) : EntryOut :=
  { id := e.id, date := e.date, client := e.client
    propertyAddress := e.propertyAddress, service := e.service
    timeIn := e.timeIn, timeOut := e.timeOut, totalHours := e.totalHours
    employees := entryEmployeeNames links e.id }

/-- The text "\x7b\x7d" (an empty JSON object). -/
def emptyObjText : String := String.mk ['\x7b', '\x7d']

/-- The argument the handler passes to JSON.parse for a properties row:
`p.services || '\x7b\x7d'`.  SQL NULL surfaces as JS null and the empty
string is falsy, so both fall back to the empty-object text. -/
def servicesText : Option String → String
  | none => emptyObjText
  | some s => if s = "" then emptyObjText else s

/-- Deserialize one properties row (`\x7b ...p, services: JSON.parse(...) \x7d`);
`none` when JSON.parse throws. -/
def parsePropertyRow (p : Property) : Option PropertyOut :=
  (Json.parse (servicesText p.services)).map
    (fun sv => ⟨p.id, p.fullName, p.address, sv⟩)

/-- Deserialize one activeTimers row; `none` when JSON.parse throws on its
employees column (which is not guarded by a fallback). -/
def parseTimerRow (t : ActiveTimer) : Option TimerOut :=
  (Json.parse t.employees).map
    (fun emps =>
      ⟨t.id, t.startTime, t.date, t.client, t.propertyAddress, t.service,
        emps⟩)

/-- Map a fallible row transform over a table; the first throw aborts the
whole handler (the JS `.map` body throwing propagates to the catch). -/
def mapOrFail (f : α → Option β) : List α → Option (List β)
  | [] => some []
  | a :: rest =>
    match f a with
    | none => none
    | some b => (mapOrFail f rest).map (fun bs => b :: bs)

/-- GET /api/data: reads the five tables (entries sorted newest first by
date then id, employees sorted by name), stitches employee names onto
entries, deserializes property services (with the empty-object fallback) and
timer employee lists.  `none` models the 500 answer taken when any
deserialization throws. -/
def fetchAll (db : DB) : Option Aggregate :=
  let sortedEntries := List.insertionSort entryDesc db.entries
  let sortedEmployees := List.insertionSort empByName db.employees
  let entriesOut := sortedEntries.map (entryWithEmployees db.entry_employees)
  match mapOrFail parsePropertyRow db.properties,
        mapOrFail parseTimerRow db.activeTimers with
  | some ps, some ts => some ⟨entriesOut, ps, sortedEmployees, ts⟩
  | _, _ => none

/-- POST /api/properties: inserts the row with services serialized
(`JSON.stringify(services)`); a UNIQUE violation on the address (or an I/O
failure, via the oracle) answers 500. -/
def postProperty (db : DB) (fullName address : String) (services : Json)
    (fail : Oracle) : Resp × DB :=
  if fail 0 then (.err500, db)
  else if db.properties.any (fun p => p.address == address) then
    (.err500, db)
  else
    (.created db.nextPropertyId,
      { db with
        properties := db.properties ++
          [⟨db.nextPropertyId, fullName, address,
            some (Json.stringify services)⟩]
        nextPropertyId := db.nextPropertyId + 1 })

/-! The one-shot migration script. -/

/-- A legacy properties record of db.json. -/
structure LegacyProp where
  id : Nat
  fullName : String
  address : String
  services : Option Json

/-- A legacy entries record of db.json.  The time-in and time-out fields may
appear in either casing (or not at all); absent fields are `none`. -/
structure LegacyEntry where
  id : Nat
  date : String
  client : String
  propertyAddress : String
  service : String
  cTimeIn : Option String
  lTimeIn : Option String
  cTimeOut : Option String
  lTimeOut : Option String
  totalHours : String
  employees : Option (List String)
deriving Repr

/-- The legacy db.json document. -/
structure LegacyDoc where
  properties : List LegacyProp
  employees : List String
  entries : List LegacyEntry

/-- The JS expression `a || b` on two possibly-absent strings: `a` when it
is present and truthy (nonempty), otherwise `b`. -/
def jsOrStr (a b : Option String) : Option String :=
  match a with
  | some s => if s = "" then b else some s
  | none => b

/-- Time-in column the migration stores for a legacy entry:
`entry.TimeIn || entry.timeIn`. -/
def LegacyEntry.timeIn (e : LegacyEntry) : Option String :=
  jsOrStr e.cTimeIn e.lTimeIn

/-- Time-out column the migration stores for a legacy entry:
`entry.TimeOut || entry.timeOut`. -/
def LegacyEntry.timeOut (e : LegacyEntry) : Option String :=
  jsOrStr e.cTimeOut e.lTimeOut

/-- The entries row the migration inserts for a legacy entry: the original
id is inserted explicitly, never regenerated. -/
def LegacyEntry.toRow (e : LegacyEntry) : Entry :=
  { id := e.id, date := e.date, client := e.client
    propertyAddress := e.propertyAddress, service := e.service
    timeIn := e.timeIn, timeOut := e.timeOut, totalHours := e.totalHours }

/-- The join rows the migration inserts for a legacy entry: one per name of
the embedded employee list, linked to the original entry id (the
`entry.employees && entry.employees.length > 0` guard only skips the empty
loop). -/
def LegacyEntry.linkRows (e : LegacyEntry) : List EntryEmployee :=
  match e.employees with
  | none => []
  | some names => names.map (fun n => ⟨e.id, n⟩)

/-- The properties row the migration inserts: original id, services
serialized with the `prop.services || \x7b\x7d` fallback. -/
def LegacyProp.toRow (p : LegacyProp) : Property :=
  { id := p.id, fullName := p.fullName, address := p.address
    services := some (Json.stringify (p.services.getD (Json.obj []))) }

/-- Insert loop of the migration over properties. -/
def migrateProps (ps : List LegacyProp) (db : DB) : DB :=
  match ps with
  | [] => db
  | p :: rest =>
    migrateProps rest { db with properties := db.properties ++ [p.toRow] }

/-- Insert loop of the migration over employees (plain INSERT with a fresh
autoincrement id). -/
def migrateEmps (ns : List String) (db : DB) : DB :=
  match ns with
  | [] => db
  | n :: rest =>
    migrateEmps rest
      { db with employees := db.employees ++ [⟨db.nextEmployeeId, n⟩]
                nextEmployeeId := db.nextEmployeeId + 1 }

/-- Insert loop of the migration over entries: the entries insert followed
immediately by the link inserts of the embedded employee list. -/
def migrateEntries (es : List LegacyEntry) (db : DB) : DB :=
  match es with
  | [] => db
  | e :: rest =>
    migrateEntries rest
      { db with entries := db.entries ++ [e.toRow]
                entry_employees := db.entry_employees ++ e.linkRows }

/-- The migration script: properties, then employees, then entries with
their links. -/
def migrate (doc : LegacyDoc) (db : DB) : DB :=
  migrateEntries doc.entries (migrateEmps doc.employees (migrateProps doc.properties db))

/-! The backup function. -/

/-- A flat filesystem model: a set of directories and a mapping from file
paths to contents. -/
structure FS where
  dirs : List String
  files : List (String × String)
deriving Repr, DecidableEq

/-- The path of the live store file. -/
def dbPath : String := "database.db"

/-- The backup directory. -/
def backupDir : String := "backups"

/-- The timestamp sanitizer: `toISOString().replace(/[:.]/g, '-')`, a
global character-class replacement, maps every colon and dot to a dash. -/
def sanitizeTs (ts : String) : String :=
  String.mk (ts.data.map (fun c => if c = ':' ∨ c = '.' then '-' else c))

/-- The backup file name built by the handler:
`db-backup-<sanitized timestamp>.db`. -/
def backupFileName (ts : String) : String :=
  "db-backup-" ++ sanitizeTs ts ++ ".db"

/-- Path of the backup file inside the backup directory. -/
def backupFilePath (ts : String) : String :=
  backupDir ++ "/" ++ backupFileName ts

/-- One backup invocation: mkdir (recursive, statement 0) then copyFile
(statement 1), with the whole body inside a try/catch whose catch only logs.
The function always returns a filesystem — errors are swallowed, never
propagated; a failed copy after a successful mkdir keeps the directory. -/
def createBackup (fs : FS) (ts : String) (fail : Oracle) : FS :=
  if fail 0 then fs
  else
    let fs1 :=
      if backupDir ∈ fs.dirs then fs
      else { fs with dirs := fs.dirs ++ [backupDir] }
    if fail 1 then fs1
    else
      match fs1.files.lookup dbPath with
      | none => fs1
      | some content =>
        { fs1 with files := fs1.files ++ [(backupFilePath ts, content)] }

/-! Auxiliary measures and predicates used by the statements. -/

/-- One step of decimal accumulation. -/
def digitStep (a : Nat) (c : Char) : Nat := a * 10 + digitVal c

/-- Ten to the number of decimal digits of `n`. -/
def natWidth (n : Nat) : Nat :=
  if n < 10 then 10 else 10 * natWidth (n / 10)
termination_by n
decreasing_by exact Nat.div_lt_self (by omega) (by omega)

/-- A character list that does not start with a decimal digit (so a greedy
digit run before it stops exactly there). -/
def noDigitHead : List Char → Bool
  | [] => true
  | c :: _ => !c.isDigit

mutual

/-- Fuel sufficient for `parseJ` on the printed form of a value. -/
def pfuel : Json → Nat
  | .null => 1
  | .bool _ => 1
  | .num _ => 1
  | .str _ => 1
  | .arr es => 1 + lfuel es
  | .obj fs => 1 + ffuel fs

/-- Fuel sufficient for `parseElems` on printed array elements. -/
def lfuel : List Json → Nat
  | [] => 1
  | e :: rest => 1 + pfuel e + lfuel rest

/-- Fuel sufficient for `parseFields` on printed object members. -/
def ffuel : List (String × Json) → Nat
  | [] => 1
  | (_, v) :: rest => 1 + pfuel v + ffuel rest

end

/-- The fetch-all output ordering on annotated entries: newest first by
date, then by id, both descending. -/
def entryOutDesc (a b : EntryOut) : Prop :=
  strLt b.date a.date ∨ (b.date = a.date ∧ b.id ≤ a.id)

/-- Forget the stitched employee names of an annotated entry, recovering the
stored row. -/
def entryOutToRow (e : EntryOut) : Entry :=
  { id := e.id, date := e.date, client := e.client
    propertyAddress := e.propertyAddress, service := e.service
    timeIn := e.timeIn, timeOut := e.timeOut, totalHours := e.totalHours }

/-! Concrete inputs used by witnesses and counterexamples. -/

/-- An entry-creation request with one employee. -/
def req1 : EntryReq :=
  { date := "2024-01-01", client := "X", propertyAddress := "1 Main St"
    service := "mowing", employees := ["Alice"], timeIn := "09:00"
    timeOut := "10:00", totalHours := "1" }

/-- Oracle under which exactly the second statement (index 1) fails. -/
def failSecond : Oracle := fun k => k == 1

/-- A store holding one property and one entry at its address. -/
def db1 : DB :=
  { entries := [⟨1, "2024-01-01", "X", "1 Main St", "mowing", some "09:00",
      some "10:00", "1"⟩]
    entry_employees := [⟨1, "Alice"⟩]
    properties := [⟨1, "Acme", "1 Main St", none⟩]
    employees := [⟨1, "Alice"⟩]
    activeTimers := []
    nextEntryId := 2, nextPropertyId := 2, nextEmployeeId := 2 }

/-- A store whose single active timer has an employees column that is not
JSON. -/
def dbBadTimer : DB :=
  { DB.empty with
    activeTimers := [⟨"t1", "09:00", "2024-01-01", "X", "1 Main St",
      "mowing", "x"⟩] }

/-- A store with one active timer whose employees column is valid JSON. -/
def dbTimer : DB :=
  { DB.empty with
    activeTimers := [⟨"t1", "09:00", "2024-01-01", "X", "1 Main St",
      "mowing", "[\"Alice\"]"⟩] }

/-- A small well-formed store exercising every part of the fetch-all
aggregate: two entries out of date order, one link, two employees out of
name order, a property with NULL services and a timer. -/
def dbRich : DB :=
  { entries := [⟨2, "2024-01-01", "Y", "2 Oak Ave", "weeding", none, none, "2"⟩,
      ⟨1, "2024-01-02", "X", "1 Main St", "mowing", some "09:00",
        some "10:00", "1"⟩]
    entry_employees := [⟨1, "Alice"⟩]
    properties := [⟨1, "Acme", "1 Main St", none⟩]
    employees := [⟨1, "Bob"⟩, ⟨2, "Alice"⟩]
    activeTimers := [⟨"t1", "09:00", "2024-01-01", "X", "1 Main St",
      "mowing", "[\"Alice\"]"⟩]
    nextEntryId := 3, nextPropertyId := 2, nextEmployeeId := 3 }

/-- A legacy entry using the capitalised time-field casing, with an
embedded employee list. -/
def leg41 : LegacyEntry :=
  ⟨41, "2024-01-01", "X", "1 Main St", "mowing",
    some "09:00", none, some "10:00", none, "1", some ["Alice", "Bob"]⟩

/-- A legacy entry using the lower-case time-in variant and an empty-string
(falsy) capitalised time-out that must fall back to the other casing. -/
def leg42 : LegacyEntry :=
  ⟨42, "2024-01-02", "Y", "1 Main St", "weeding",
    none, some "08:00", some "", some "09:30", "1.5", none⟩

/-- A legacy document exercising id preservation, both time-field casings
and embedded employee lists. -/
def doc1 : LegacyDoc :=
  { properties := [⟨7, "Acme", "1 Main St", none⟩]
    employees := ["Alice", "Bob"]
    entries := [leg41, leg42] }

/-- The aggregate fetch-all returns on `dbRich`. -/
def aggRich : Aggregate :=
  { entries := [⟨1, "2024-01-02", "X", "1 Main St", "mowing", some "09:00",
      some "10:00", "1", ["Alice"]⟩,
      ⟨2, "2024-01-01", "Y", "2 Oak Ave", "weeding", none, none, "2", []⟩]
    properties := [⟨1, "Acme", "1 Main St", Json.obj []⟩]
    employees := [⟨2, "Alice"⟩, ⟨1, "Bob"⟩]
    activeTimers := [⟨"t1", "09:00", "2024-01-01", "X", "1 Main St",
      "mowing", Json.arr [Json.str "Alice"]⟩] }

/-- The aggregate fetch-all returns on `db1` after its property (and the
entry at its address) is deleted. -/
def aggDel : Aggregate := ⟨[], [], [⟨1, "Alice"⟩], []⟩

/-- The services mapping of the specification's own scenario. -/
def svcMowing : Json := Json.obj [("mowing", Json.bool true)]

/-- The aggregate fetch-all returns once the scenario property is created
in the empty store. -/
def aggAcme : Aggregate :=
  ⟨[], [⟨1, "Acme", "1 Main St", svcMowing⟩], [], []⟩

/-- A filesystem holding only the live store file. -/
def fs1 : FS := ⟨[], [(dbPath, "data")]⟩

/-- A sample ISO-8601 timestamp. -/
def ts1 : String := "2025-01-02T03:04:05.678Z"

/-! Theorems. -/

/-- Digit characters of digits below ten are decimal digits. -/
theorem digitChar_isDigit : ∀ d : Nat, d < 10 → (Nat.digitChar d).isDigit = true := by
  decide

/-- Reading back the digit character of a digit below ten gives the digit. -/
theorem digitVal_digitChar : ∀ d : Nat, d < 10 → digitVal (Nat.digitChar d) = d := by
  decide

/-- A decimal digit character is none of the characters that open another
JSON token or close or separate a composite. -/
theorem isDigit_ne {c : Char} (h : c.isDigit = true) :
    c ≠ 'n' ∧ c ≠ 't' ∧ c ≠ 'f' ∧ c ≠ '"' ∧ c ≠ '[' ∧ c ≠ '\x7b' ∧
    c ≠ '-' ∧ c ≠ ']' ∧ c ≠ '\x7d' ∧ c ≠ ',' ∧ c ≠ ':' := by
  refine ⟨?_, ?_, ?_, ?_, ?_, ?_, ?_, ?_, ?_, ?_, ?_⟩ <;>
    (rintro rfl; revert h; decide)

/-- The digit characters of a number: never empty, all decimal digits. -/
theorem natChars_spec (n : Nat) :
    natChars n ≠ [] ∧ ∀ c ∈ natChars n, c.isDigit = true := by
  induction n using Nat.strong_induction_on with
  | _ n IH =>
    rw [natChars]
    split
    · next h =>
      refine ⟨by simp, ?_⟩
      intro c hc
      simp only [List.mem_singleton] at hc
      subst hc
      exact digitChar_isDigit _ h
    · next h =>
      have IH' := IH (n / 10) (Nat.div_lt_self (by omega) (by omega))
      refine ⟨by simp [IH'.1], ?_⟩
      intro c hc
      rcases List.mem_append.mp hc with h1 | h1
      · exact IH'.2 c h1
      · simp only [List.mem_singleton] at h1
        subst h1
        exact digitChar_isDigit _ (Nat.mod_lt _ (by omega))

/-- Folding decimal accumulation over the digit characters of `n` appends
`n` after scaling the accumulator by the width of `n`. -/
theorem natChars_foldl (n : Nat) :
    ∀ acc, (natChars n).foldl digitStep acc = acc * natWidth n + n := by
  induction n using Nat.strong_induction_on with
  | _ n IH =>
    intro acc
    rw [natChars, natWidth]
    split
    · next h =>
      simp only [List.foldl_cons, List.foldl_nil, digitStep]
      rw [digitVal_digitChar _ h]
    · next h =>
      rw [List.foldl_append]
      rw [IH (n / 10) (Nat.div_lt_self (by omega) (by omega))]
      simp only [List.foldl_cons, List.foldl_nil, digitStep]
      rw [digitVal_digitChar _ (Nat.mod_lt _ (by omega))]
      have := Nat.div_add_mod n 10
      ring_nf
      omega

/-- A greedy digit run over digits followed by a non-digit consumes exactly
the digits, folding them onto the accumulator. -/
theorem parseDigitsAux_append (ds : List Char) :
    ∀ acc rest, (∀ c ∈ ds, c.isDigit = true) → noDigitHead rest = true →
      parseDigitsAux (ds ++ rest) acc = (ds.foldl digitStep acc, rest) := by
  induction ds with
  | nil =>
    intro acc rest _ hrest
    cases rest with
    | nil => rfl
    | cons c cs =>
      simp only [noDigitHead, Bool.not_eq_true'] at hrest
      simp [parseDigitsAux, hrest]
  | cons c ds IH =>
    intro acc rest hds hrest
    have hc : c.isDigit = true := hds c (List.mem_cons_self c ds)
    simp only [List.cons_append, parseDigitsAux, hc, if_pos]
    rw [show List.append ds rest = ds ++ rest from rfl]
    rw [IH _ rest (fun x hx => hds x (List.mem_cons_of_mem c hx)) hrest]
    rfl

/-- Reading a printed number followed by a non-digit gives back the number
and the remainder. -/
theorem parseDecimal_natChars (n : Nat) (rest : List Char)
    (hrest : noDigitHead rest = true) :
    parseDecimal (natChars n ++ rest) = some (n, rest) := by
  obtain ⟨hne, hdig⟩ := natChars_spec n
  obtain ⟨c, ds, hcd⟩ := List.exists_cons_of_ne_nil hne
  have hc : c.isDigit = true := hdig c (by rw [hcd]; exact List.mem_cons_self c ds)
  have hds : ∀ x ∈ ds, x.isDigit = true := fun x hx =>
    hdig x (by rw [hcd]; exact List.mem_cons_of_mem c hx)
  rw [hcd, List.cons_append]
  simp only [parseDecimal, hc, if_pos]
  rw [parseDigitsAux_append ds _ rest hds hrest]
  have hval : (c :: ds).foldl digitStep 0 = n := by
    rw [← hcd, natChars_foldl]; omega
  simp only [List.foldl_cons] at hval
  have h0 : digitStep 0 c = digitVal c := by simp [digitStep]
  rw [h0] at hval
  rw [hval]

/-- Reading back an escaped string body up to its closing quote gives back
the original characters and the remainder. -/
theorem parseStrChars_escString (cs : List Char) :
    ∀ rest, parseStrChars (escString cs ++ ('"' :: rest)) = some (cs, rest) := by
  induction cs with
  | nil =>
    intro rest
    simp only [escString, List.nil_append]
    rw [parseStrChars.eq_def]
    simp
  | cons c cs IH =>
    intro rest
    by_cases h1 : c = '"'
    · subst h1
      have he : escString ('"' :: cs) = '\\' :: '"' :: escString cs := by
        rw [escString]; rfl
      rw [he, List.cons_append, List.cons_append]
      rw [parseStrChars.eq_def]
      simp only [reduceIte]
      rw [IH rest]
      simp [unescChar]
    · by_cases h2 : c = '\\'
      · subst h2
        have he : escString ('\\' :: cs) = '\\' :: '\\' :: escString cs := by
          rw [escString]; rfl
        rw [he, List.cons_append, List.cons_append]
        rw [parseStrChars.eq_def]
        simp only [reduceIte]
        rw [IH rest]
        simp [unescChar]
      · by_cases h3 : c = '\n'
        · subst h3
          have he : escString ('\n' :: cs) = '\\' :: 'n' :: escString cs := by
            rw [escString]; rfl
          rw [he, List.cons_append, List.cons_append]
          rw [parseStrChars.eq_def]
          simp only [reduceIte]
          rw [IH rest]
          simp [unescChar]
        · by_cases h4 : c = '\t'
          · subst h4
            have he : escString ('\t' :: cs) = '\\' :: 't' :: escString cs := by
              rw [escString]; rfl
            rw [he, List.cons_append, List.cons_append]
            rw [parseStrChars.eq_def]
            simp only [reduceIte]
            rw [IH rest]
            simp [unescChar]
          · by_cases h5 : c = '\r'
            · subst h5
              have he : escString ('\r' :: cs) = '\\' :: 'r' :: escString cs := by
                rw [escString]; rfl
              rw [he, List.cons_append, List.cons_append]
              rw [parseStrChars.eq_def]
              simp only [reduceIte]
              rw [IH rest]
              simp [unescChar]
            · have he : escString (c :: cs) = c :: escString cs := by
                rw [escString]
                simp only [escChar, if_neg h1, if_neg h2, if_neg h3, if_neg h4,
                  if_neg h5, List.cons_append, List.nil_append]
              rw [he, List.cons_append]
              rw [parseStrChars.eq_def]
              simp only [h1, h2, if_false, reduceIte]
              rw [IH rest]
              rfl

/-- Printed JSON output is nonempty and never starts with a closing
bracket. -/
theorem printJson_head (j : Json) :
    ∃ c cs, printJson j = c :: cs ∧ c ≠ ']' := by
  cases j with
  | null => exact ⟨'n', _, rfl, by decide⟩
  | bool b =>
    cases b with
    | true => exact ⟨'t', _, rfl, by decide⟩
    | false => exact ⟨'f', _, rfl, by decide⟩
  | num i =>
    simp only [printJson, intChars]
    by_cases hi : i < 0
    · rw [if_pos hi]
      exact ⟨'-', _, rfl, by decide⟩
    · rw [if_neg hi]
      obtain ⟨hne, hdig⟩ := natChars_spec i.natAbs
      obtain ⟨c, ds, hcd⟩ := List.exists_cons_of_ne_nil hne
      refine ⟨c, ds, hcd, ?_⟩
      exact (isDigit_ne (hdig c (by rw [hcd]; exact List.mem_cons_self c ds))).2.2.2.2.2.2.2.1
  | str s => exact ⟨'"', _, rfl, by decide⟩
  | arr es => exact ⟨'[', _, rfl, by decide⟩
  | obj fs => exact ⟨'\x7b', _, rfl, by decide⟩

/-- Printed array elements are nonempty and never start with the closing
bracket when there is at least one element. -/
theorem printElems_head (es : List Json) (h : es ≠ []) :
    ∃ c cs, printElems es = c :: cs ∧ c ≠ ']' := by
  match es with
  | [e] =>
    obtain ⟨c, cs, hc, hne⟩ := printJson_head e
    exact ⟨c, cs, by simp only [printElems, hc], hne⟩
  | e :: e2 :: rest =>
    obtain ⟨c, cs, hc, hne⟩ := printJson_head e
    refine ⟨c, cs ++ ',' :: printElems (e2 :: rest), ?_, hne⟩
    simp only [printElems, hc, List.cons_append]

/-- Every fuel requirement is positive. -/
theorem pfuel_pos (j : Json) : 1 ≤ pfuel j := by
  cases j <;> simp [pfuel]

/-- The element fuel requirement is positive. -/
theorem lfuel_pos (es : List Json) : 1 ≤ lfuel es := by
  cases es <;> simp [lfuel] <;> omega

/-- The member fuel requirement is positive. -/
theorem ffuel_pos (fs : List (String × Json)) : 1 ≤ ffuel fs := by
  match fs with
  | [] => simp [ffuel]
  | (k, v) :: rest => simp [ffuel]; omega

/-- A string rebuilt from its character list is itself. -/
theorem string_mk_data (s : String) : String.mk s.data = s := by
  cases s; rfl

/-- Printed values re-parse to themselves: simultaneous statement for
values, array elements and object members, by induction on fuel. -/
theorem rt_all : ∀ fuel : Nat,
    (∀ (j : Json) (rest : List Char), pfuel j ≤ fuel → noDigitHead rest = true →
      parseJ fuel (printJson j ++ rest) = some (j, rest)) ∧
    (∀ (es : List Json) (rest : List Char), es ≠ [] → lfuel es ≤ fuel →
      parseElems fuel (printElems es ++ (']' :: rest)) = some (es, rest)) ∧
    (∀ (fs : List (String × Json)) (rest : List Char), fs ≠ [] → ffuel fs ≤ fuel →
      parseFields fuel (printFields fs ++ ('\x7d' :: rest)) = some (fs, rest)) := by
  intro fuel
  induction fuel with
  | zero =>
    refine ⟨?_, ?_, ?_⟩
    · intro j rest hf _
      have := pfuel_pos j; omega
    · intro es rest _ hf
      have := lfuel_pos es; omega
    · intro fs rest _ hf
      have := ffuel_pos fs; omega
  | succ fuel IH =>
    obtain ⟨IHj, IHe, IHf⟩ := IH
    refine ⟨?_, ?_, ?_⟩
    · intro j rest hf hrest
      cases j with
      | null =>
        show parseJ (fuel + 1) ('n' :: 'u' :: 'l' :: 'l' :: rest) =
          some (Json.null, rest)
        simp only [parseJ]
        simp
      | bool b =>
        cases b with
        | true =>
          show parseJ (fuel + 1) ('t' :: 'r' :: 'u' :: 'e' :: rest) =
            some (Json.bool true, rest)
          simp only [parseJ]
          simp
        | false =>
          show parseJ (fuel + 1) ('f' :: 'a' :: 'l' :: 's' :: 'e' :: rest) =
            some (Json.bool false, rest)
          simp only [parseJ]
          simp
      | num i =>
        simp only [printJson, intChars]
        by_cases hi : i < 0
        · rw [if_pos hi, List.cons_append]
          simp only [parseJ]
          rw [if_neg (by decide : ¬('-' = 'n')), if_neg (by decide : ¬('-' = 't')),
            if_neg (by decide : ¬('-' = 'f')), if_neg (by decide : ¬('-' = '"')),
            if_neg (by decide : ¬('-' = '[')), if_neg (by decide : ¬('-' = '\x7b'))]
          simp only [if_true]
          rw [parseDecimal_natChars i.natAbs rest hrest]
          have hni : -((i.natAbs : Nat) : Int) = i := by omega
          rw [Option.map_some']
          rw [hni]
        · rw [if_neg hi]
          obtain ⟨hne, hdig⟩ := natChars_spec i.natAbs
          obtain ⟨c, ds, hcd⟩ := List.exists_cons_of_ne_nil hne
          have hc : c.isDigit = true :=
            hdig c (by rw [hcd]; exact List.mem_cons_self c ds)
          obtain ⟨hn, ht, hf', hq, hbr, hbc, hm, _, _, _, _⟩ := isDigit_ne hc
          rw [hcd, List.cons_append]
          simp only [parseJ]
          rw [if_neg hn, if_neg ht, if_neg hf', if_neg hq, if_neg hbr,
            if_neg hbc, if_neg hm, if_pos hc]
          rw [← List.cons_append, ← hcd]
          rw [parseDecimal_natChars i.natAbs rest hrest]
          have hni : ((i.natAbs : Nat) : Int) = i := by omega
          rw [Option.map_some']
          rw [hni]
      | str s =>
        have hshape : printJson (Json.str s) ++ rest =
            '"' :: (escString s.data ++ ('"' :: rest)) := by
          simp [printJson, List.append_assoc]
        rw [hshape]
        simp only [parseJ]
        simp only [reduceIte]
        rw [parseStrChars_escString s.data rest]
        simp [string_mk_data]
      | arr es =>
        cases es with
        | nil =>
          have hshape : printJson (Json.arr []) ++ rest = '[' :: ']' :: rest := by
            simp [printJson, printElems]
          rw [hshape]
          simp only [parseJ]
          simp
        | cons e es' =>
          have hshape : printJson (Json.arr (e :: es')) ++ rest =
              '[' :: (printElems (e :: es') ++ (']' :: rest)) := by
            simp [printJson, List.append_assoc]
          rw [hshape]
          simp only [parseJ]
          simp only [reduceIte]
          obtain ⟨c, cs, hc, hne⟩ := printElems_head (e :: es') (by simp)
          rw [hc, List.cons_append]
          have hhead : (c :: (cs ++ ']' :: rest)).head? ≠ some ']' := by
            simp [hne]
          rw [if_neg hhead]
          rw [← List.cons_append, ← hc]
          have hfe : lfuel (e :: es') ≤ fuel := by
            rw [pfuel] at hf; omega
          rw [IHe (e :: es') rest (by simp) hfe]
          rfl
      | obj fs =>
        cases fs with
        | nil =>
          have hshape : printJson (Json.obj []) ++ rest = '\x7b' :: '\x7d' :: rest := by
            simp [printJson, printFields]
          rw [hshape]
          simp only [parseJ]
          simp
        | cons kv fs' =>
          have hshape : printJson (Json.obj (kv :: fs')) ++ rest =
              '\x7b' :: (printFields (kv :: fs') ++ ('\x7d' :: rest)) := by
            simp [printJson, List.append_assoc]
          rw [hshape]
          simp only [parseJ]
          simp only [reduceIte]
          obtain ⟨k, v⟩ := kv
          have hpf : ∃ cs, printFields ((k, v) :: fs') = '"' :: cs := by
            cases fs' with
            | nil =>
              exact ⟨escString k.data ++ '"' :: ':' :: printJson v,
                by simp [printFields]⟩
            | cons kv2 fs'' =>
              exact ⟨escString k.data ++ '"' :: ':' ::
                (printJson v ++ ',' :: printFields (kv2 :: fs'')),
                by simp [printFields]⟩
          obtain ⟨cs, hc⟩ := hpf
          rw [hc, List.cons_append]
          have hhead : ('"' :: (cs ++ '\x7d' :: rest)).head? ≠ some '\x7d' := by
            simp
          rw [if_neg hhead]
          rw [← List.cons_append, ← hc]
          have hff : ffuel ((k, v) :: fs') ≤ fuel := by
            rw [pfuel] at hf; omega
          rw [IHf ((k, v) :: fs') rest (by simp) hff]
          rfl
    · intro es rest hne hf
      obtain ⟨e, es', rfl⟩ : ∃ x xs, es = x :: xs := by
        cases es with
        | nil => exact absurd rfl hne
        | cons x xs => exact ⟨x, xs, rfl⟩
      have hfe : pfuel e ≤ fuel := by
        have := lfuel_pos es'; rw [lfuel] at hf; omega
      cases es' with
      | nil =>
        have hshape : printElems [e] ++ (']' :: rest) =
            printJson e ++ (']' :: rest) := by
          simp [printElems]
        rw [hshape]
        simp only [parseElems]
        rw [IHj e (']' :: rest) hfe (by simp [noDigitHead])]
        simp
      | cons e2 es'' =>
        have hshape : printElems (e :: e2 :: es'') ++ (']' :: rest) =
            printJson e ++ (',' :: (printElems (e2 :: es'') ++ (']' :: rest))) := by
          simp [printElems, List.append_assoc]
        rw [hshape]
        simp only [parseElems]
        rw [IHj e _ hfe (by simp [noDigitHead])]
        have hfe2 : lfuel (e2 :: es'') ≤ fuel := by
          have := pfuel_pos e; rw [lfuel] at hf; omega
        simp only [List.head?_cons, Option.some.injEq, reduceIte, List.tail_cons]
        rw [IHe (e2 :: es'') rest (by simp) hfe2]
        rfl
    · intro fs rest hne hf
      obtain ⟨⟨k, v⟩, fs', rfl⟩ : ∃ x xs, fs = x :: xs := by
        cases fs with
        | nil => exact absurd rfl hne
        | cons x xs => exact ⟨x, xs, rfl⟩
      have hfv : pfuel v ≤ fuel := by
        have := ffuel_pos fs'; rw [ffuel] at hf; omega
      cases fs' with
      | nil =>
        have hshape : printFields [(k, v)] ++ ('\x7d' :: rest) =
            '"' :: (escString k.data ++ ('"' :: (':' :: (printJson v ++ ('\x7d' :: rest))))) := by
          simp [printFields, List.append_assoc]
        rw [hshape]
        simp only [parseFields]
        simp only [List.head?_cons, Option.some.injEq, reduceIte, List.tail_cons]
        rw [parseStrChars_escString k.data]
        simp only [List.head?_cons, Option.some.injEq, reduceIte, List.tail_cons]
        rw [IHj v ('\x7d' :: rest) hfv (by simp [noDigitHead])]
        simp [string_mk_data]
      | cons kv2 fs'' =>
        have hshape : printFields ((k, v) :: kv2 :: fs'') ++ ('\x7d' :: rest) =
            '"' :: (escString k.data ++ ('"' :: (':' :: (printJson v ++
              (',' :: (printFields (kv2 :: fs'') ++ ('\x7d' :: rest))))))) := by
          simp [printFields, List.append_assoc]
        rw [hshape]
        simp only [parseFields]
        simp only [List.head?_cons, Option.some.injEq, reduceIte, List.tail_cons]
        rw [parseStrChars_escString k.data]
        simp only [List.head?_cons, Option.some.injEq, reduceIte, List.tail_cons]
        rw [IHj v _ hfv (by simp [noDigitHead])]
        have hff2 : ffuel (kv2 :: fs'') ≤ fuel := by
          have := pfuel_pos v; rw [ffuel] at hf; omega
        simp only [List.head?_cons, Option.some.injEq, reduceIte, List.tail_cons]
        rw [IHf (kv2 :: fs'') rest (by simp) hff2]
        simp [string_mk_data]

/-- The fuel requirement of a value is at most twice its printed length
(similarly for elements and members, up to an additive constant). -/
theorem pfuel_le_print : ∀ n : Nat,
    (∀ j : Json, pfuel j ≤ n → pfuel j ≤ 2 * (printJson j).length) ∧
    (∀ es : List Json, lfuel es ≤ n → es ≠ [] →
      lfuel es ≤ 2 * (printElems es).length + 2) ∧
    (∀ fs : List (String × Json), ffuel fs ≤ n → fs ≠ [] →
      ffuel fs ≤ 2 * (printFields fs).length + 2) := by
  intro n
  induction n with
  | zero =>
    refine ⟨?_, ?_, ?_⟩
    · intro j hf; have := pfuel_pos j; omega
    · intro es hf _; have := lfuel_pos es; omega
    · intro fs hf _; have := ffuel_pos fs; omega
  | succ n IH =>
    obtain ⟨IHj, IHe, IHf⟩ := IH
    refine ⟨?_, ?_, ?_⟩
    · intro j hf
      cases j with
      | null => simp [pfuel, printJson]
      | bool b => cases b <;> simp [pfuel, printJson]
      | num i =>
        have h1 : (printJson (Json.num i)).length ≥ 1 := by
          obtain ⟨c, cs, hc, _⟩ := printJson_head (Json.num i)
          rw [hc]; simp
        simp only [pfuel]; omega
      | str s =>
        have h1 : (printJson (Json.str s)).length ≥ 1 := by
          obtain ⟨c, cs, hc, _⟩ := printJson_head (Json.str s)
          rw [hc]; simp
        simp only [pfuel]; omega
      | arr es =>
        cases es with
        | nil => simp [pfuel, lfuel, printJson, printElems]
        | cons e es' =>
          rw [pfuel] at hf ⊢
          have he : lfuel (e :: es') ≤ 2 * (printElems (e :: es')).length + 2 :=
            IHe (e :: es') (by omega) (by simp)
          have hlen : (printJson (Json.arr (e :: es'))).length =
              (printElems (e :: es')).length + 2 := by
            simp [printJson]
          omega
      | obj fs =>
        cases fs with
        | nil => simp [pfuel, ffuel, printJson, printFields]
        | cons kv fs' =>
          rw [pfuel] at hf ⊢
          have he : ffuel (kv :: fs') ≤ 2 * (printFields (kv :: fs')).length + 2 :=
            IHf (kv :: fs') (by omega) (by simp)
          have hlen : (printJson (Json.obj (kv :: fs'))).length =
              (printFields (kv :: fs')).length + 2 := by
            simp [printJson]
          omega
    · intro es hf hne
      obtain ⟨e, es', rfl⟩ : ∃ x xs, es = x :: xs := by
        cases es with
        | nil => exact absurd rfl hne
        | cons x xs => exact ⟨x, xs, rfl⟩
      rw [lfuel] at hf ⊢
      have hje : pfuel e ≤ 2 * (printJson e).length :=
        IHj e (by have := lfuel_pos es'; omega)
      cases es' with
      | nil => simp only [printElems, lfuel]; omega
      | cons e2 es'' =>
        have he2 : lfuel (e2 :: es'') ≤ 2 * (printElems (e2 :: es'')).length + 2 :=
          IHe (e2 :: es'') (by have := pfuel_pos e; omega) (by simp)
        have hlen : (printElems (e :: e2 :: es'')).length =
            (printJson e).length + 1 + (printElems (e2 :: es'')).length := by
          simp [printElems]; omega
        omega
    · intro fs hf hne
      obtain ⟨⟨k, v⟩, fs', rfl⟩ : ∃ x xs, fs = x :: xs := by
        cases fs with
        | nil => exact absurd rfl hne
        | cons x xs => exact ⟨x, xs, rfl⟩
      rw [ffuel] at hf ⊢
      have hjv : pfuel v ≤ 2 * (printJson v).length :=
        IHj v (by have := ffuel_pos fs'; omega)
      cases fs' with
      | nil =>
        have hnil : ffuel ([] : List (String × Json)) = 1 := rfl
        simp only [printFields]; simp; omega
      | cons kv2 fs'' =>
        have he2 : ffuel (kv2 :: fs'') ≤ 2 * (printFields (kv2 :: fs'')).length + 2 :=
          IHf (kv2 :: fs'') (by have := pfuel_pos v; omega) (by simp)
        have hlen : (printFields ((k, v) :: kv2 :: fs'')).length =
            (escString k.data).length + 3 + (printJson v).length + 1 +
              (printFields (kv2 :: fs'')).length := by
          simp [printFields]; omega
        omega

/-- JSON round-trip: parsing the stringified form of any value gives back
exactly that value.  This is the property behind the services (and timer
employee list) serialize/deserialize boundary. -/
theorem Json.parse_stringify (j : Json) : Json.parse (Json.stringify j) = some j := by
  have hfuel : pfuel j ≤ 2 * (Json.stringify j).length + 2 := by
    have h := (pfuel_le_print (pfuel j)).1 j le_rfl
    have hlen : (Json.stringify j).length = (printJson j).length := rfl
    omega
  have hdata : (Json.stringify j).data = printJson j := rfl
  rw [Json.parse, hdata]
  have h := (rt_all (2 * (Json.stringify j).length + 2)).1 j [] hfuel rfl
  rw [List.append_nil] at h
  rw [h]

/-! Claim C5: idempotent employee creation. -/

/-- Claim C5 (confirmed).  Employee creation is idempotent: with the store
statements succeeding, creating a name inserts a row exactly when the name
is absent, answers 201 with the name whether or not it pre-existed, and
creating the same name twice leaves the store exactly as creating it once. -/
theorem c5_employee_create_idempotent (db : DB) (name : String) :
    (postEmployee db name noFail).1 = .createdName name ∧
    (postEmployee (postEmployee db name noFail).2 name noFail).1 =
      .createdName name ∧
    (postEmployee (postEmployee db name noFail).2 name noFail).2 =
      (postEmployee db name noFail).2 ∧
    (db.employees.any (fun e => e.name == name) = false →
      (postEmployee db name noFail).2 =
        { db with employees := db.employees ++ [⟨db.nextEmployeeId, name⟩]
                  nextEmployeeId := db.nextEmployeeId + 1 }) ∧
    (db.employees.any (fun e => e.name == name) = true →
      (postEmployee db name noFail).2 = db) := by
  by_cases h : db.employees.any (fun e => e.name == name) = true
  · refine ⟨?_, ?_, ?_, ?_, ?_⟩ <;>
      simp [postEmployee, noFail, h]
  · have h' : db.employees.any (fun e => e.name == name) = false := by
      simpa using h
    have h2 : (db.employees ++ [(⟨db.nextEmployeeId, name⟩ : Employee)]).any
        (fun e => e.name == name) = true := by
      simp [List.any_append]
    refine ⟨?_, ?_, ?_, ?_, ?_⟩ <;>
      simp [postEmployee, noFail, h', h2]

/-- Second-call no-op at a concrete input: creating "Alice" twice from the
empty store equals creating it once, each call answering 201. -/
theorem c5_witness :
    DB.empty.employees.any (fun e => e.name == "Alice") = false ∧
    (postEmployee DB.empty "Alice" noFail).1 = .createdName "Alice" ∧
    (postEmployee (postEmployee DB.empty "Alice" noFail).2 "Alice" noFail).2 =
      (postEmployee DB.empty "Alice" noFail).2 ∧
    (postEmployee DB.empty "Alice" noFail).2 =
      { DB.empty with employees := [⟨1, "Alice"⟩], nextEmployeeId := 2 } := by
  have h := c5_employee_create_idempotent DB.empty "Alice"
  exact ⟨rfl, h.1, h.2.2.1, h.2.2.2.1 rfl⟩

/-! Claim C7: timer deletion and the not-found case. -/

/-- Refutation of claim C7 as stated: deleting a timer id that is not
present answers 204 with the store unchanged, not 500 — a DELETE matching
no row is a successful statement, so "not found" is indistinguishable from
successful deletion, not treated as a failure. -/
theorem c7_not_found_is_204_cex :
    deleteTimer db1 "ghost" noFail = (.noContent, db1) ∧
    (Resp.noContent : Resp) ≠ .err500 := by
  exact ⟨by decide, by decide⟩

/-- Claim C7 (amended).  DELETE /api/timers/:id answers 500 with the store
unchanged exactly when the statement fails; otherwise it deletes the rows
matching the id (none, when the id is absent) and answers 204 with an empty
body — also when the id was not present. -/
theorem c7_timer_delete (db : DB) (tid : String) (fail : Oracle) :
    (fail 0 = true → deleteTimer db tid fail = (.err500, db)) ∧
    (fail 0 = false →
      deleteTimer db tid fail =
        (.noContent,
          { db with activeTimers :=
              db.activeTimers.filter (fun t => t.id != tid) })) := by
  constructor
  · intro h; simp [deleteTimer, h]
  · intro h; simp [deleteTimer, h]

/-- Timer deletion at a concrete input: deleting the present id "t1"
answers 204 and removes exactly that row. -/
theorem c7_timer_delete_witness :
    noFail 0 = false ∧
    deleteTimer dbTimer "t1" noFail =
      (.noContent,
        { dbTimer with activeTimers :=
            dbTimer.activeTimers.filter (fun t => t.id != "t1") }) := by
  exact ⟨rfl, (c7_timer_delete dbTimer "t1" noFail).2 rfl⟩

/-! Claim C10: the services fallback for NULL or empty columns. -/

/-- Claim C10 (confirmed).  A properties row whose stored services column is
NULL or empty deserializes without failure: the fallback hands the
empty-object text to the JSON reader, so the row is returned with the empty
mapping and the parse-error branch is not taken for it. -/
theorem c10_null_services_fallback (p : Property)
    (h : p.services = none ∨ p.services = some "") :
    parsePropertyRow p = some ⟨p.id, p.fullName, p.address, Json.obj []⟩ := by
  have htext : servicesText p.services = emptyObjText := by
    rcases h with h | h <;> simp [h, servicesText]
  have hparse : Json.parse emptyObjText = some (Json.obj []) := by rfl
  simp [parsePropertyRow, htext, hparse]

/-- Fallback at a concrete input: a row with NULL services deserializes to
the empty mapping. -/
theorem c10_null_services_fallback_witness :
    (⟨1, "Acme", "1 Main St", none⟩ : Property).services = none ∧
    parsePropertyRow ⟨1, "Acme", "1 Main St", none⟩ =
      some ⟨1, "Acme", "1 Main St", Json.obj []⟩ := by
  exact ⟨rfl, c10_null_services_fallback _ (Or.inl rfl)⟩

/-! Claim C9: the backup function. -/

/-- Refutation of claim C9 as stated: the backup file name is not of the
form db-backup-<timestamp> with the timestamp ending it — the handler
appends a ".db" extension (so the full name even contains a dot, which only
the timestamp part has replaced). -/
theorem c9_backup_name_cex :
    backupFileName ts1 = "db-backup-2025-01-02T03-04-05-678Z.db" ∧
    backupFileName ts1 ≠ "db-backup-" ++ sanitizeTs ts1 := by
  exact ⟨by decide, by decide⟩

/-- Claim C9 (amended).  A backup invocation sanitizes the ISO timestamp by
replacing every colon and dot with a dash, names the copy
db-backup-<sanitized timestamp>.db inside the backups directory, creates
that directory when absent, copies the live store file there on success,
and on a failing statement returns with at most the directory created —
errors are swallowed, never propagated. -/
theorem c9_backup (fs : FS) (ts : String) (fail : Oracle) :
    (∀ c ∈ (sanitizeTs ts).data, c ≠ ':' ∧ c ≠ '.') ∧
    backupFileName ts = "db-backup-" ++ sanitizeTs ts ++ ".db" ∧
    (fail 0 = false → fail 1 = false →
      ∀ content, fs.files.lookup dbPath = some content →
        backupDir ∈ (createBackup fs ts fail).dirs ∧
        (createBackup fs ts fail).files =
          fs.files ++ [(backupFilePath ts, content)]) ∧
    (createBackup fs ts fail = fs ∨
      createBackup fs ts fail = { fs with dirs := fs.dirs ++ [backupDir] } ∨
      (createBackup fs ts fail).files =
        (createBackup fs ts fail).files.take fs.files.length ++
          [(backupFilePath ts, (fs.files.lookup dbPath).getD "")]) := by
  refine ⟨?_, rfl, ?_, ?_⟩
  · intro c hc
    simp only [sanitizeTs, List.mem_map] at hc
    obtain ⟨a, _, rfl⟩ := hc
    by_cases h : a = ':' ∨ a = '.'
    · simp [h]
    · push_neg at h
      simp [h.1, h.2]
  · intro h0 h1 content hlook
    by_cases hdir : backupDir ∈ fs.dirs
    · simp [createBackup, h0, h1, hdir, hlook]
    · simp [createBackup, h0, h1, hdir, hlook]
  · by_cases h0 : fail 0 = true
    · exact Or.inl (by simp [createBackup, h0])
    · have h0' : fail 0 = false := by simpa using h0
      by_cases h1 : fail 1 = true
      · by_cases hdir : backupDir ∈ fs.dirs
        · exact Or.inl (by simp [createBackup, h0', h1, hdir])
        · exact Or.inr (Or.inl (by simp [createBackup, h0', h1, hdir]))
      · have h1' : fail 1 = false := by simpa using h1
        cases hlook : fs.files.lookup dbPath with
        | none =>
          by_cases hdir : backupDir ∈ fs.dirs
          · exact Or.inl (by simp [createBackup, h0', h1', hdir, hlook])
          · exact Or.inr (Or.inl (by simp [createBackup, h0', h1', hdir, hlook]))
        | some content =>
          refine Or.inr (Or.inr ?_)
          by_cases hdir : backupDir ∈ fs.dirs <;>
            simp [createBackup, h0', h1', hdir, hlook, List.take_append]

/-- Successful backup at a concrete input: directory created and the live
file copied under the sanitized name. -/
theorem c9_backup_witness :
    noFail 0 = false ∧ noFail 1 = false ∧
    fs1.files.lookup dbPath = some "data" ∧
    backupDir ∈ (createBackup fs1 ts1 noFail).dirs ∧
    (createBackup fs1 ts1 noFail).files =
      fs1.files ++ [(backupFilePath ts1, "data")] := by
  have h := (c9_backup fs1 ts1 noFail).2.2.1 rfl rfl "data" rfl
  exact ⟨rfl, rfl, rfl, h.1, h.2⟩

/-! Claim C8: the migration script. -/

/-- Property loop of the migration appends one row per legacy property. -/
theorem migrateProps_eq (ps : List LegacyProp) : ∀ db : DB,
    migrateProps ps db =
      { db with properties := db.properties ++ ps.map LegacyProp.toRow } := by
  induction ps with
  | nil => intro db; simp [migrateProps]
  | cons p rest IH =>
    intro db
    rw [migrateProps, IH]
    simp [List.append_assoc]

/-- Employee loop of the migration: only the employees table changes, and
its names extend by the legacy list in order. -/
theorem migrateEmps_eq (ns : List String) : ∀ db : DB,
    (migrateEmps ns db).entries = db.entries ∧
    (migrateEmps ns db).entry_employees = db.entry_employees ∧
    (migrateEmps ns db).properties = db.properties ∧
    (migrateEmps ns db).activeTimers = db.activeTimers ∧
    (migrateEmps ns db).employees.map (fun e => e.name) =
      db.employees.map (fun e => e.name) ++ ns := by
  induction ns with
  | nil => intro db; simp [migrateEmps]
  | cons n rest IH =>
    intro db
    rw [migrateEmps]
    obtain ⟨h1, h2, h3, h4, h5⟩ := IH
      { db with employees := db.employees ++ [⟨db.nextEmployeeId, n⟩]
                nextEmployeeId := db.nextEmployeeId + 1 }
    refine ⟨h1, h2, h3, h4, ?_⟩
    rw [h5]
    simp

/-- Entry loop of the migration appends one entries row per legacy entry
and its link rows, in order. -/
theorem migrateEntries_eq (es : List LegacyEntry) : ∀ db : DB,
    migrateEntries es db =
      { db with entries := db.entries ++ es.map LegacyEntry.toRow
                entry_employees := db.entry_employees ++
                  (es.map LegacyEntry.linkRows).join } := by
  induction es with
  | nil => intro db; simp [migrateEntries]
  | cons e rest IH =>
    intro db
    rw [migrateEntries, IH]
    simp [List.append_assoc]

/-- Claim C8 (confirmed).  The migration inserts each legacy property and
each legacy entry under its original numeric identifier (ids are never
regenerated), re-creates one join row per name of each entry's embedded
employee list linked to the original entry id, migrates the employee names
in order, and stores as time-in and time-out the first truthy value of the
two casing variants of each field. -/
theorem c8_migration (doc : LegacyDoc) (db : DB) :
    (migrate doc db).properties =
      db.properties ++ doc.properties.map LegacyProp.toRow ∧
    (migrate doc db).entries =
      db.entries ++ doc.entries.map LegacyEntry.toRow ∧
    (migrate doc db).entry_employees =
      db.entry_employees ++ (doc.entries.map LegacyEntry.linkRows).join ∧
    (migrate doc db).employees.map (fun e => e.name) =
      db.employees.map (fun e => e.name) ++ doc.employees ∧
    (∀ p ∈ doc.properties, p.toRow.id = p.id) ∧
    (∀ e ∈ doc.entries, e.toRow.id = e.id ∧
      e.toRow.timeIn = jsOrStr e.cTimeIn e.lTimeIn ∧
      e.toRow.timeOut = jsOrStr e.cTimeOut e.lTimeOut ∧
      e.linkRows = (e.employees.getD []).map (fun n => ⟨e.id, n⟩)) := by
  have hp := migrateProps_eq doc.properties db
  have he := migrateEmps_eq doc.employees (migrateProps doc.properties db)
  have hn := migrateEntries_eq doc.entries
    (migrateEmps doc.employees (migrateProps doc.properties db))
  refine ⟨?_, ?_, ?_, ?_, ?_, ?_⟩
  · rw [migrate, hn]
    simp only []
    rw [he.2.2.1, hp]
  · rw [migrate, hn]
    simp only []
    rw [he.1, hp]
  · rw [migrate, hn]
    simp only []
    rw [he.2.1, hp]
  · rw [migrate]
    have hemp : (migrateEntries doc.entries
        (migrateEmps doc.employees (migrateProps doc.properties db))).employees =
        (migrateEmps doc.employees (migrateProps doc.properties db)).employees := by
      rw [hn]
    rw [hemp, he.2.2.2.2, hp]
  · intro p _; rfl
  · intro e _
    refine ⟨rfl, rfl, rfl, ?_⟩
    cases h : e.employees with
    | none => simp [LegacyEntry.linkRows, h]
    | some names => simp [LegacyEntry.linkRows, h]

/-- Migration at a concrete input: original ids 7, 41, 42 are kept, join
rows come from the embedded lists, and both time-field casings are read
(the falsy empty capitalised time-out of the second entry falls back to the
lower-case variant). -/
theorem c8_migration_witness :
    leg42 ∈ doc1.entries ∧
    (migrate doc1 DB.empty).properties.map (fun p => p.id) = [7] ∧
    (migrate doc1 DB.empty).entries.map (fun e => e.id) = [41, 42] ∧
    (migrate doc1 DB.empty).entry_employees =
      [⟨41, "Alice"⟩, ⟨41, "Bob"⟩] ∧
    (migrate doc1 DB.empty).employees.map (fun e => e.name) =
      ["Alice", "Bob"] ∧
    leg42.toRow.timeIn = some "08:00" ∧
    leg42.toRow.timeOut = some "09:30" := by
  have h := c8_migration doc1 DB.empty
  have hmem : leg42 ∈ doc1.entries :=
    List.mem_cons_of_mem _ (List.mem_cons_self _ _)
  have h42 := h.2.2.2.2.2 leg42 hmem
  refine ⟨hmem, ?_, ?_, ?_, ?_, ?_, ?_⟩
  · rw [h.1]; rfl
  · rw [h.2.1]; rfl
  · rw [h.2.2.1]; rfl
  · rw [h.2.2.2.1]; rfl
  · rw [h42.2.1]; rfl
  · rw [h42.2.2.1]; rfl

/-! Claims C1 and C2: entry creation and update. -/

/-- When the link-insert loop succeeds it appends exactly one join row per
employee name, in order. -/
theorem insertLinks_some (emps : List String) : ∀ (fail : Oracle) (k eid : Nat)
    (db db2 : DB), insertLinks fail k eid emps db = some db2 →
    db2 = { db with entry_employees :=
      db.entry_employees ++ emps.map (fun n => ⟨eid, n⟩) } := by
  induction emps with
  | nil =>
    intro fail k eid db db2 h
    simp only [insertLinks, Option.some.injEq] at h
    simp [← h]
  | cons e rest IH =>
    intro fail k eid db db2 h
    simp only [insertLinks] at h
    by_cases hk : fail k = true
    · simp [hk] at h
    · have hk' : fail k = false := by simpa using hk
      rw [hk'] at h
      simp only [Bool.false_eq_true, if_false] at h
      have := IH fail (k + 1) eid _ db2 h
      rw [this]
      simp

/-- Claim C1 (amended, better-sqlite3 variant).  Entry creation runs the
entries insert and the per-employee link inserts as one transaction: either
every statement succeeds — the response is 201 with the generated id and
the store gains exactly the new entries row and one join row per submitted
employee name — or the handler answers 500 and the store is exactly as
before the call. -/
theorem c1_entry_creation_atomic (db : DB) (r : EntryReq) (fail : Oracle) :
    ((postEntries db r fail).1 = .err500 ∧ (postEntries db r fail).2 = db) ∨
    ((postEntries db r fail).1 = .created db.nextEntryId ∧
      (postEntries db r fail).2 =
        { db with
          entries := db.entries ++ [r.toRow db.nextEntryId]
          entry_employees := db.entry_employees ++
            r.employees.map (fun n => ⟨db.nextEntryId, n⟩)
          nextEntryId := db.nextEntryId + 1 }) := by
  by_cases h0 : fail 0 = true
  · exact Or.inl (by simp [postEntries, h0])
  · have h0' : fail 0 = false := by simpa using h0
    cases hlinks : insertLinks fail 1 db.nextEntryId r.employees
        { db with entries := db.entries ++ [r.toRow db.nextEntryId]
                  nextEntryId := db.nextEntryId + 1 } with
    | none =>
      refine Or.inl ?_
      constructor <;>
        simp [postEntries, h0', hlinks]
    | some db2 =>
      refine Or.inr ?_
      have hchar := insertLinks_some r.employees fail 1 db.nextEntryId _ db2 hlinks
      constructor
      · simp [postEntries, h0', hlinks]
      · simp only [postEntries, h0', Bool.false_eq_true, if_false, hlinks]
        rw [hchar]

/-- Refutation of claim C1 for the node-sqlite3 variant: with the entries
insert succeeding and the first link insert failing, the handler answers
500 but the store now holds the new entries row with no join row — a
partial write visible to every later read, not the store as it was before
the call. -/
theorem c1_async_partial_write_cex :
    postEntriesAsync DB.empty req1 failSecond =
      (.err500, { DB.empty with entries := [req1.toRow 1], nextEntryId := 2 }) ∧
    (postEntriesAsync DB.empty req1 failSecond).2 ≠ DB.empty ∧
    (postEntriesAsync DB.empty req1 failSecond).2.entries ≠ [] ∧
    (postEntriesAsync DB.empty req1 failSecond).2.entry_employees = [] := by
  refine ⟨by decide, by decide, by decide, by decide⟩

/-- Restriction of the join table to the rows of one entry id. -/
theorem filter_links_append (links : List EntryEmployee) (eid : Nat)
    (names : List String) :
    ((links.filter (fun l => l.entry_id != eid) ++
        names.map (fun n => (⟨eid, n⟩ : EntryEmployee))).filter
      (fun l => l.entry_id == eid)).map (fun l => l.employee_name) = names := by
  rw [List.filter_append]
  have h1 : (links.filter (fun l => l.entry_id != eid)).filter
      (fun l => l.entry_id == eid) = [] := by
    rw [List.filter_filter]
    apply List.filter_eq_nil_iff.mpr
    intro l _
    simp [Bool.and_comm]
  rw [h1, List.nil_append]
  have h2 : (names.map (fun n => (⟨eid, n⟩ : EntryEmployee))).filter
      (fun l => l.entry_id == eid) = names.map (fun n => ⟨eid, n⟩) := by
    apply List.filter_eq_self.mpr
    intro l hl
    simp only [List.mem_map] at hl
    obtain ⟨n, _, rfl⟩ := hl
    simp
  rw [h2, List.map_map]
  have hcomp : ((fun l : EntryEmployee => l.employee_name) ∘
      fun n => (⟨eid, n⟩ : EntryEmployee)) = fun n => n := rfl
  rw [hcomp]
  exact List.map_id' names

/-- Shape of the update handler once the first two statements succeed. -/
theorem putEntries_eq (db : DB) (eid : Nat) (r : EntryReq) (fail : Oracle)
    (h0 : fail 0 = false) (h1 : fail 1 = false) :
    putEntries db eid r fail =
      match insertLinks fail 2 eid r.employees
          { db with
            entries := db.entries.map (updateEntryRow r eid)
            entry_employees :=
              db.entry_employees.filter (fun l => l.entry_id != eid) } with
      | some db3 => (.okBody, db3)
      | none => (.err500, db) := by
  rw [putEntries]
  rw [h0, h1]
  rfl

/-- Claim C2 (confirmed).  Entry update is transactional: either the
response is 500 with the store exactly as before, or the response is 200
echoing the submitted body and the store holds the updated entries row, the
join rows of that entry replaced by exactly one per submitted employee name
(in order), and nothing else changed; in particular no join row of the
updated entry references a name outside the submitted list. -/
theorem c2_entry_update_replaces_links (db : DB) (eid : Nat) (r : EntryReq)
    (fail : Oracle) :
    ((putEntries db eid r fail).1 = .err500 ∧
      (putEntries db eid r fail).2 = db) ∨
    ((putEntries db eid r fail).1 = .okBody ∧
      (putEntries db eid r fail).2 =
        { db with
          entries := db.entries.map (updateEntryRow r eid)
          entry_employees :=
            db.entry_employees.filter (fun l => l.entry_id != eid) ++
              r.employees.map (fun n => ⟨eid, n⟩) } ∧
      (((putEntries db eid r fail).2.entry_employees.filter
          (fun l => l.entry_id == eid)).map (fun l => l.employee_name)) =
        r.employees ∧
      ∀ l ∈ (putEntries db eid r fail).2.entry_employees,
        l.entry_id = eid → l.employee_name ∈ r.employees) := by
  by_cases h0 : fail 0 = true
  · exact Or.inl (by simp [putEntries, h0])
  · have h0' : fail 0 = false := by simpa using h0
    by_cases h1 : fail 1 = true
    · refine Or.inl ?_
      rw [putEntries, h0']
      simp only [Bool.false_eq_true, if_false]
      rw [h1]
      simp
    · have h1' : fail 1 = false := by simpa using h1
      rw [putEntries_eq db eid r fail h0' h1']
      cases hlinks : insertLinks fail 2 eid r.employees
          { db with
            entries := db.entries.map (updateEntryRow r eid)
            entry_employees :=
              db.entry_employees.filter (fun l => l.entry_id != eid) } with
      | none => exact Or.inl ⟨rfl, rfl⟩
      | some db3 =>
        refine Or.inr ?_
        have hchar := insertLinks_some r.employees fail 2 eid _ db3 hlinks
        refine ⟨rfl, ?_, ?_, ?_⟩
        · simpa using hchar
        · show ((db3.entry_employees.filter (fun l => l.entry_id == eid)).map
            (fun l => l.employee_name)) = r.employees
          rw [hchar]
          exact filter_links_append db.entry_employees eid r.employees
        · show ∀ l ∈ db3.entry_employees, l.entry_id = eid →
            l.employee_name ∈ r.employees
          rw [hchar]
          intro l hl heid
          simp only [List.mem_append] at hl
          rcases hl with hl | hl
          · have := List.of_mem_filter hl
            simp [heid] at this
          · simp only [List.mem_map] at hl
            obtain ⟨n, hn, rfl⟩ := hl
            simpa using hn

/-! Claim C3: property deletion with entry cascade. -/

/-- A fallible row map succeeding relates input and output rows
positionally. -/
theorem mapOrFail_forall₂ {α β : Type} (f : α → Option β) :
    ∀ (l : List α) (l2 : List β), mapOrFail f l = some l2 →
      List.Forall₂ (fun a b => f a = some b) l l2 := by
  intro l
  induction l with
  | nil =>
    intro l2 h
    simp only [mapOrFail, Option.some.injEq] at h
    rw [← h]
    exact List.Forall₂.nil
  | cons a rest IH =>
    intro l2 h
    simp only [mapOrFail] at h
    cases hfa : f a with
    | none => rw [hfa] at h; simp at h
    | some b =>
      rw [hfa] at h
      cases hrest : mapOrFail f rest with
      | none => rw [hrest] at h; simp at h
      | some bs =>
        rw [hrest] at h
        simp only [Option.map_some', Option.some.injEq] at h
        rw [← h]
        exact List.Forall₂.cons hfa (IH bs hrest)

/-- The aggregate a successful fetch-all returns, table by table. -/
theorem fetchAll_eq (db : DB) (agg : Aggregate) (h : fetchAll db = some agg) :
    agg.entries = (List.insertionSort entryDesc db.entries).map
      (entryWithEmployees db.entry_employees) ∧
    mapOrFail parsePropertyRow db.properties = some agg.properties ∧
    agg.employees = List.insertionSort empByName db.employees ∧
    mapOrFail parseTimerRow db.activeTimers = some agg.activeTimers := by
  cases hp : mapOrFail parsePropertyRow db.properties with
  | none => simp [fetchAll, hp] at h
  | some ps =>
    cases ht : mapOrFail parseTimerRow db.activeTimers with
    | none => simp [fetchAll, hp, ht] at h
    | some ts =>
      simp only [fetchAll, hp, ht, Option.some.injEq] at h
      rw [← h]
      exact ⟨rfl, rfl, rfl, rfl⟩

/-- Every entry of a successful fetch-all aggregate is the annotation of a
stored entries row. -/
theorem fetchAll_entries_mem (db : DB) (agg : Aggregate)
    (h : fetchAll db = some agg) :
    ∀ eo ∈ agg.entries, ∃ e ∈ db.entries,
      eo = entryWithEmployees db.entry_employees e := by
  intro eo heo
  rw [(fetchAll_eq db agg h).1] at heo
  simp only [List.mem_map] at heo
  obtain ⟨e, he, rfl⟩ := heo
  exact ⟨e, (List.perm_insertionSort entryDesc db.entries).mem_iff.mp he, rfl⟩

/-- Claim C3 (amended, better-sqlite3 variant).  Property deletion runs the
entries delete and the properties delete as one transaction: either it
answers 500 with the store exactly as before, or it answers 204 with an
empty body, the store retains no entries row at the address and no
properties row with it, and a successful fetch-all performed afterwards
contains no entry whose propertyAddress equals the deleted address. -/
theorem c3_property_delete_cascade (db : DB) (addr : String) (fail : Oracle) :
    ((deleteProperty db addr fail).1 = .err500 ∧
      (deleteProperty db addr fail).2 = db) ∨
    ((deleteProperty db addr fail).1 = .noContent ∧
      (deleteProperty db addr fail).2 =
        { db with
          entries := db.entries.filter (fun e => e.propertyAddress != addr)
          properties := db.properties.filter (fun p => p.address != addr) } ∧
      ∀ agg, fetchAll (deleteProperty db addr fail).2 = some agg →
        ∀ eo ∈ agg.entries, eo.propertyAddress ≠ addr) := by
  by_cases h0 : fail 0 = true
  · exact Or.inl (by simp [deleteProperty, h0])
  · have h0' : fail 0 = false := by simpa using h0
    by_cases h1 : fail 1 = true
    · refine Or.inl ?_
      rw [deleteProperty, h0']
      simp only [Bool.false_eq_true, if_false]
      rw [h1]
      simp
    · have h1' : fail 1 = false := by simpa using h1
      have hres : deleteProperty db addr fail =
          (.noContent,
            { db with
              entries := db.entries.filter (fun e => e.propertyAddress != addr)
              properties := db.properties.filter (fun p => p.address != addr) }) := by
        rw [deleteProperty, h0']
        simp only [Bool.false_eq_true, if_false]
        rw [h1']
        rfl
      refine Or.inr ⟨by rw [hres], by rw [hres], ?_⟩
      intro agg hagg eo heo
      rw [hres] at hagg
      obtain ⟨e, he, rfl⟩ := fetchAll_entries_mem _ agg hagg eo heo
      simp only [List.mem_filter] at he
      have := he.2
      simp only [bne_iff_ne, ne_eq] at this
      exact this

/-- Refutation of claim C3 for the node-sqlite3 variant: the two deletes
are separate autocommitted statements, so with the entries delete
succeeding and the properties delete failing, the handler answers 500 while
the store has lost the entries at the address but kept the property — a
state that is neither the original store nor the result of the claimed
atomic delete. -/
theorem c3_async_partial_delete_cex :
    deletePropertyAsync db1 "1 Main St" failSecond =
      (.err500, { db1 with entries := [] }) ∧
    (deletePropertyAsync db1 "1 Main St" failSecond).2 ≠ db1 ∧
    (deletePropertyAsync db1 "1 Main St" failSecond).2.properties ≠ [] := by
  refine ⟨by decide, by decide, by decide⟩

/-- Cascade at a concrete input: deleting the property of `db1` leaves a
store whose fetch-all holds no entry at the deleted address. -/
theorem c3_property_delete_cascade_witness :
    fetchAll (deleteProperty db1 "1 Main St" noFail).2 = some aggDel ∧
    ∀ eo ∈ aggDel.entries, eo.propertyAddress ≠ "1 Main St" := by
  have h := c3_property_delete_cascade db1 "1 Main St" noFail
  rcases h with ⟨h1, _⟩ | ⟨_, _, h3⟩
  · exact absurd h1 (by decide)
  · exact ⟨by rfl, h3 aggDel (by rfl)⟩

/-! Claim C4: services round-trip through creation and fetch. -/

/-- Stringified JSON is never the empty string. -/
theorem stringify_ne_empty (j : Json) : Json.stringify j ≠ "" := by
  obtain ⟨c, cs, hc, _⟩ := printJson_head j
  intro h
  have : (Json.stringify j).data = ("" : String).data := by rw [h]
  rw [Json.stringify] at this
  simp only [hc] at this
  exact List.noConfusion this

/-- Deserializing a properties row that stores a stringified mapping gives
back exactly that mapping. -/
theorem parsePropertyRow_stringify (pid : Nat) (fn addr : String) (s : Json) :
    parsePropertyRow ⟨pid, fn, addr, some (Json.stringify s)⟩ =
      some ⟨pid, fn, addr, s⟩ := by
  have htext : servicesText (some (Json.stringify s)) = Json.stringify s := by
    simp [servicesText, stringify_ne_empty s]
  simp [parsePropertyRow, htext, Json.parse_stringify]

/-- A positionally related list pairs every member with a member. -/
theorem forall₂_mem {α β : Type} {R : α → β → Prop} :
    ∀ {l : List α} {l2 : List β}, List.Forall₂ R l l2 →
      ∀ a ∈ l, ∃ b ∈ l2, R a b := by
  intro l
  induction l with
  | nil => intro l2 _ a ha; exact absurd ha (List.not_mem_nil a)
  | cons x rest IH =>
    intro l2 h a ha
    cases h with
    | cons hxb hrest =>
      rcases List.mem_cons.mp ha with rfl | ha'
      · exact ⟨_, List.mem_cons_self _ _, hxb⟩
      · obtain ⟨b, hb, hab⟩ := IH hrest a ha'
        exact ⟨b, List.mem_cons_of_mem _ hb, hab⟩

/-- Claim C4 (confirmed).  Creating a property stores the submitted services
mapping serialized; with the statements succeeding and the address fresh,
the handler answers 201 with the generated id, and any successful fetch-all
performed on the resulting store returns that property with its services
mapping deep-equal to the one submitted. -/
theorem c4_services_roundtrip (db : DB) (fullName address : String)
    (services : Json)
    (hfresh : db.properties.any (fun p => p.address == address) = false) :
    (postProperty db fullName address services noFail).1 =
      .created db.nextPropertyId ∧
    (postProperty db fullName address services noFail).2.properties =
      db.properties ++ [⟨db.nextPropertyId, fullName, address,
        some (Json.stringify services)⟩] ∧
    ∀ agg, fetchAll (postProperty db fullName address services noFail).2 =
        some agg →
      (⟨db.nextPropertyId, fullName, address, services⟩ : PropertyOut) ∈
        agg.properties := by
  have hpost : postProperty db fullName address services noFail =
      (.created db.nextPropertyId,
        { db with
          properties := db.properties ++ [⟨db.nextPropertyId, fullName,
            address, some (Json.stringify services)⟩]
          nextPropertyId := db.nextPropertyId + 1 }) := by
    rw [postProperty]
    simp [noFail, hfresh]
  refine ⟨by rw [hpost], by rw [hpost], ?_⟩
  intro agg hagg
  rw [hpost] at hagg
  have hmap := (fetchAll_eq _ agg hagg).2.1
  have hf2 := mapOrFail_forall₂ parsePropertyRow _ _ hmap
  have hmem : (⟨db.nextPropertyId, fullName, address,
      some (Json.stringify services)⟩ : Property) ∈
      db.properties ++ [⟨db.nextPropertyId, fullName, address,
        some (Json.stringify services)⟩] := by
    simp
  obtain ⟨b, hb, hab⟩ := forall₂_mem hf2 _ hmem
  rw [parsePropertyRow_stringify] at hab
  have : b = ⟨db.nextPropertyId, fullName, address, services⟩ :=
    (Option.some.injEq _ _).mp hab.symm
  rw [← this]
  exact hb

/-- Round-trip at the specification's own scenario: creating
"Acme"/"1 Main St" with services mowing:true in the empty store and fetching
everything back returns the property with the identical mapping. -/
theorem c4_services_roundtrip_witness :
    DB.empty.properties.any (fun p => p.address == "1 Main St") = false ∧
    (postProperty DB.empty "Acme" "1 Main St" svcMowing noFail).1 =
      .created 1 ∧
    fetchAll (postProperty DB.empty "Acme" "1 Main St" svcMowing noFail).2 =
      some aggAcme ∧
    (⟨1, "Acme", "1 Main St", svcMowing⟩ : PropertyOut) ∈ aggAcme.properties := by
  have h := c4_services_roundtrip DB.empty "Acme" "1 Main St" svcMowing rfl
  exact ⟨rfl, h.1, by rfl, h.2.2 aggAcme (by rfl)⟩

/-! Claim C6: the fetch-all aggregate shape. -/

/-- Refutation of claim C6 as stated: a store state whose timer employees
column is not JSON text makes the fetch-all handler throw while
deserializing and answer 500, not 200 — so the 200-with-aggregate behavior
does not hold for every store state. -/
theorem c6_unparseable_timer_cex : fetchAll dbBadTimer = none := by rfl

/-- Claim C6 (amended).  For every store state on which the stored
serialized columns deserialize (as in every state the API itself writes),
fetch-all answers 200 with an aggregate in which the entries are a
permutation of the stored rows sorted newest first by date then id, each
annotated with exactly the employee names linked to it in the join table;
the properties carry their services deserialized (with the empty-object
fallback for NULL or empty); the employees are the stored rows ordered by
name; and each active timer carries its employees column deserialized.
On a store state with an undeserializable column the handler answers 500. -/
theorem c6_fetch_all_shape (db : DB) (agg : Aggregate)
    (h : fetchAll db = some agg) :
    List.Sorted entryOutDesc agg.entries ∧
    (agg.entries.map entryOutToRow).Perm db.entries ∧
    (∀ eo ∈ agg.entries,
      eo.employees = entryEmployeeNames db.entry_employees eo.id) ∧
    List.Forall₂ (fun (p : Property) (po : PropertyOut) =>
      po.id = p.id ∧ po.fullName = p.fullName ∧ po.address = p.address ∧
      Json.parse (servicesText p.services) = some po.services)
      db.properties agg.properties ∧
    agg.employees.Perm db.employees ∧
    List.Sorted empByName agg.employees ∧
    List.Forall₂ (fun (t : ActiveTimer) (to2 : TimerOut) =>
      to2.id = t.id ∧ to2.startTime = t.startTime ∧ to2.date = t.date ∧
      to2.client = t.client ∧ to2.propertyAddress = t.propertyAddress ∧
      to2.service = t.service ∧ Json.parse t.employees = some to2.employees)
      db.activeTimers agg.activeTimers := by
  obtain ⟨hent, hprop, hemp, htim⟩ := fetchAll_eq db agg h
  refine ⟨?_, ?_, ?_, ?_, ?_, ?_, ?_⟩
  · rw [hent]
    apply List.pairwise_map.mpr
    apply List.Pairwise.imp ?_ (List.sorted_insertionSort entryDesc db.entries)
    intro a b hab
    exact hab
  · rw [hent, List.map_map]
    have hcomp : (entryOutToRow ∘ entryWithEmployees db.entry_employees) =
        fun e => e := rfl
    rw [hcomp, List.map_id']
    exact List.perm_insertionSort entryDesc db.entries
  · intro eo heo
    rw [hent] at heo
    simp only [List.mem_map] at heo
    obtain ⟨e, _, rfl⟩ := heo
    rfl
  · have hf2 := mapOrFail_forall₂ parsePropertyRow _ _ hprop
    apply List.Forall₂.imp ?_ hf2
    intro p po hab
    simp only [parsePropertyRow] at hab
    cases hparse : Json.parse (servicesText p.services) with
    | none => rw [hparse] at hab; simp at hab
    | some sv =>
      rw [hparse] at hab
      simp only [Option.map_some', Option.some.injEq] at hab
      rw [← hab]
      exact ⟨rfl, rfl, rfl, rfl⟩
  · rw [hemp]
    exact List.perm_insertionSort empByName db.employees
  · rw [hemp]
    exact List.sorted_insertionSort empByName db.employees
  · have hf2 := mapOrFail_forall₂ parseTimerRow _ _ htim
    apply List.Forall₂.imp ?_ hf2
    intro t to2 hab
    simp only [parseTimerRow] at hab
    cases hparse : Json.parse t.employees with
    | none => rw [hparse] at hab; simp at hab
    | some emps =>
      rw [hparse] at hab
      simp only [Option.map_some', Option.some.injEq] at hab
      rw [← hab]
      exact ⟨rfl, rfl, rfl, rfl, rfl, rfl, rfl⟩

/-- Fetch-all at a concrete well-formed store: the aggregate lists the two
entries newest first with their stitched names, the employees in name
order, the NULL services as the empty mapping and the timer employees
deserialized. -/
theorem c6_fetch_all_shape_witness :
    fetchAll dbRich = some aggRich ∧
    List.Sorted entryOutDesc aggRich.entries ∧
    (aggRich.entries.map entryOutToRow).Perm dbRich.entries ∧
    aggRich.employees.Perm dbRich.employees ∧
    List.Sorted empByName aggRich.employees := by
  have h := c6_fetch_all_shape dbRich aggRich (by rfl)
  exact ⟨by rfl, h.1, h.2.1, h.2.2.2.2.1, h.2.2.2.2.2.1⟩
